import Mathlib

/-!
Verification development for the `iq` quote-sharing service.

The Python sources (`iq/browse.py`, `iq/quotes.py`, `iq/accounts.py`) are
shallowly embedded below.  Python strings are modelled as `List Char`,
Python `int` as `Int` (or `Nat` where the source value is a count),
`datetime.datetime` as a record of its seven fields, raised exceptions as
explicit error values, and the App Engine datastore as an association list
inside an explicit `World` record that every mutating operation threads.

Definitions come first, theorems afterwards.
-/

/-! ### Character classes and Python string primitives -/

/-- The characters matched by the regex class `\s` and stripped by
`str.strip()` in Python 2 (byte strings, no unicode flag). -/
def isPySpace (c : Char) : Bool :=
  c = ' ' ∨ c = '\t' ∨ c = '\n' ∨ c = '\r' ∨ c = '\x0b' ∨ c = '\x0c'

/-- Decimal digit characters, Python `str.isdigit` / regex `\d`. -/
def isDigitC (c : Char) : Bool :=
  '0' ≤ c ∧ c ≤ '9'

/-- The regex class `\w` for Python 2 byte strings: letters, digits, underscore. -/
def isWordChar (c : Char) : Bool :=
  ('a' ≤ c ∧ c ≤ 'z') ∨ ('A' ≤ c ∧ c ≤ 'Z') ∨ isDigitC c ∨ c = '_'

/-- ASCII lowercasing, as `str.lower()` does for byte strings. -/
def pyToLower (c : Char) : Char :=
  if 'A' ≤ c ∧ c ≤ 'Z' then Char.ofNat (c.toNat + 32) else c

/-- Value of a decimal digit character. -/
def digitVal (c : Char) : Nat :=
  c.toNat - '0'.toNat

/-- Hexadecimal digit characters accepted by Python `int(_, 16)`. -/
def isHexDigitC (c : Char) : Bool :=
  isDigitC c ∨ ('a' ≤ c ∧ c ≤ 'f') ∨ ('A' ≤ c ∧ c ≤ 'F')

/-- Value of a hexadecimal digit character (0 on other characters). -/
def hexCharVal (c : Char) : Nat :=
  if isDigitC c then digitVal c
  else if 'a' ≤ c ∧ c ≤ 'f' then c.toNat - 'a'.toNat + 10
  else if 'A' ≤ c ∧ c ≤ 'F' then c.toNat - 'A'.toNat + 10
  else 0

/-- Drop trailing `\s` characters, the second half of `str.strip()`. -/
def dropTrailing : List Char → List Char
  | [] => []
  | c :: rest =>
    match dropTrailing rest with
    | [] => if isPySpace c then [] else [c]
    | r => c :: r

/-- Python `str.strip()`: remove leading and trailing whitespace. -/
def pyStripL (l : List Char) : List Char :=
  dropTrailing (l.dropWhile isPySpace)

/-- Attach a character to the front of the first piece of a split result. -/
def consHead (c : Char) : List (List Char) → List (List Char)
  | [] => [[c]]
  | p :: ps => (c :: p) :: ps

/-- Python `str.split(sep)` for a single-character separator. -/
def splitOnChar (sep : Char) : List Char → List (List Char)
  | [] => [[]]
  | c :: rest =>
    if c = sep then [] :: splitOnChar sep rest
    else consHead c (splitOnChar sep rest)

/-- Python `sep.join(pieces)` for a single-character separator. -/
def joinWith (sep : Char) : List (List Char) → List Char
  | [] => []
  | [x] => x
  | x :: xs => x ++ sep :: joinWith sep xs

/-! ### Decimal and hexadecimal numerals (Python `%x`, `%s`, `int()`) -/

/-- Base-`b` digits of `n`, least significant first, with an explicit
recursion budget (`n / b < n` when `n ≠ 0` and `b ≥ 2`, so a budget of
`n` always suffices; the budget keeps the recursion structural). -/
def digitsRevFuel (b : Nat) : Nat → Nat → List Nat
  | 0, _ => []
  | fuel + 1, n =>
    if n = 0 ∨ b ≤ 1 then [] else n % b :: digitsRevFuel b fuel (n / b)

/-- Base-`b` digits of `n`, least significant first; `[]` for `0`.
Degenerate bases give `[]`. -/
def digitsRevB (b : Nat) (n : Nat) : List Nat :=
  digitsRevFuel b n n

/-- Base-`b` numeral of `n` as digit values, most significant first,
with `0` rendered as a single digit. -/
def reprB (b : Nat) (n : Nat) : List Nat :=
  if n = 0 then [0] else (digitsRevB b n).reverse

/-- Value of a big-endian digit list in base `b`. -/
def valB (b : Nat) (ds : List Nat) : Nat :=
  ds.foldl (fun a d => b * a + d) 0

/-- The character for digit value `d`, lowercase (as `%x` prints). -/
def hexDigitChar : Nat → Char
  | 0 => '0' | 1 => '1' | 2 => '2' | 3 => '3' | 4 => '4'
  | 5 => '5' | 6 => '6' | 7 => '7' | 8 => '8' | 9 => '9'
  | 10 => 'a' | 11 => 'b' | 12 => 'c' | 13 => 'd' | 14 => 'e' | 15 => 'f'
  | _ + 16 => '*'

/-- Value of a big-endian character list in base `b` under `hexCharVal`. -/
def valCB (b : Nat) (l : List Char) : Nat :=
  l.foldl (fun a c => b * a + hexCharVal c) 0

/-- Source `'%x' % n`: lowercase hexadecimal numeral of a natural number. -/
def hexOfNat (n : Nat) : List Char :=
  (reprB 16 n).map hexDigitChar

/-- Source `'%0wx' % n`: hexadecimal numeral left-padded with zeros to width `w`. -/
def hexPadC (w : Nat) (n : Nat) : List Char :=
  List.replicate (w - (hexOfNat n).length) '0' ++ hexOfNat n

/-- Source `'%s' % n` for a natural number: decimal numeral. -/
def decOfNat (n : Nat) : List Char :=
  (reprB 10 n).map hexDigitChar

/-- Source `'%s' % i` for a Python int: decimal numeral with optional minus sign. -/
def intRepr (i : Int) : List Char :=
  if i < 0 then '-' :: decOfNat i.natAbs else decOfNat i.natAbs

/-- The optional sign accepted by Python `int()`: the flag says whether
the value is negated, the list is what follows the sign. -/
def pySign : List Char → Bool × List Char
  | c :: r =>
    if c = '+' then (false, r) else if c = '-' then (true, r) else (false, c :: r)
  | [] => (false, [])

/-- The optional `0x` / `0X` marker accepted by Python `int(_, 16)`. -/
def pyHexBody : List Char → List Char
  | c1 :: c2 :: r => if c1 = '0' ∧ (c2 = 'x' ∨ c2 = 'X') then r else c1 :: c2 :: r
  | l => l

/-- Python 2 `int(s)`: strip whitespace, optional sign, decimal digits. -/
def parsePyInt (l : List Char) : Option Int :=
  let sr := pySign (pyStripL l)
  if sr.2.isEmpty then none
  else if sr.2.all isDigitC then
    some (if sr.1 then -(valCB 10 sr.2 : Int) else (valCB 10 sr.2 : Int))
  else none

/-- Python 2 `int(s, 16)`: strip whitespace, optional sign, optional `0x`
or `0X` marker, hexadecimal digits. -/
def parsePyHex (l : List Char) : Option Int :=
  let sr := pySign (pyStripL l)
  let ds := pyHexBody sr.2
  if ds.isEmpty then none
  else if ds.all isHexDigitC then
    some (if sr.1 then -(valCB 16 ds : Int) else (valCB 16 ds : Int))
  else none

/-! ### `iq/browse.py`: PageSpecifier cursor encoding -/

deriving instance DecidableEq for Except

/-- Error values standing for the Python exceptions raised by the embedded
code: `ValueError`, `TypeError`, `NameError` (unbound local), the quote
exceptions of `iq/quotes.py`, and `AttributeError`. -/
inductive PyErr
  | valueError
  | typeError
  | nameError
  | invalidQuoteState
  | noPermission
  | invalidKey
  | attrError
deriving DecidableEq, Repr

/-- A `datetime.datetime` value: the seven fields Python stores. -/
structure PyDateTime where
  year : Nat
  month : Nat
  day : Nat
  hour : Nat
  minute : Nat
  second : Nat
  microsecond : Nat
deriving DecidableEq, Repr

/-- Days in a month, with the Gregorian leap-year rule, as `datetime`
validates them. -/
def daysInMonth (y m : Nat) : Nat :=
  if m = 2 then
    if y % 4 = 0 ∧ (y % 100 ≠ 0 ∨ y % 400 = 0) then 29 else 28
  else if m = 4 ∨ m = 6 ∨ m = 9 ∨ m = 11 then 30
  else 31

/-- The range checks done by the `datetime.datetime` constructor;
out-of-range arguments raise `ValueError` (modelled as `none`). -/
def mkDateTime (y mo d h mi s us : Int) : Option PyDateTime :=
  if 1 ≤ y ∧ y ≤ 9999 ∧ 1 ≤ mo ∧ mo ≤ 12 ∧
     1 ≤ d ∧ d ≤ (daysInMonth y.toNat mo.toNat : Int) ∧
     0 ≤ h ∧ h ≤ 23 ∧ 0 ≤ mi ∧ mi ≤ 59 ∧ 0 ≤ s ∧ s ≤ 59 ∧
     0 ≤ us ∧ us ≤ 999999 then
    some ⟨y.toNat, mo.toNat, d.toNat, h.toNat, mi.toNat, s.toNat, us.toNat⟩
  else none

/-- Validity of a `PyDateTime`: exactly the values the constructor accepts. -/
def isValidDateTime (v : PyDateTime) : Prop :=
  1 ≤ v.year ∧ v.year ≤ 9999 ∧ 1 ≤ v.month ∧ v.month ≤ 12 ∧
  1 ≤ v.day ∧ v.day ≤ daysInMonth v.year v.month ∧
  v.hour ≤ 23 ∧ v.minute ≤ 59 ∧ v.second ≤ 59 ∧ v.microsecond ≤ 999999

instance (v : PyDateTime) : Decidable (isValidDateTime v) := by
  unfold isValidDateTime; infer_instance

/-- Source `PageSpecifier`: `mode`, `start_value`, `offset`, `size`, `reversed`. -/
structure PageSpecifier where
  mode : List Char
  start_value : Option PyDateTime
  offset : Int
  size : Int
  reversed : Bool
deriving DecidableEq, Repr

/-- Source `PageSpecifier.DEFAULT_SIZE` (the active assignment, 3). -/
def PageSpecifier.defaultSize : Int := 3

/-- Source `PageSpecifier.MAX_PAGE_SIZE`. -/
def PageSpecifier.maxPageSize : Int := 20

/-- Source `PageSpecifier.__init__`: stores the arguments, clamping `size` with
`min(MAX_PAGE_SIZE, size)`. -/
def PageSpecifier.make (mode : List Char) (start_value : Option PyDateTime)
    (offset : Int) (size : Int) (reversed : Bool) : PageSpecifier :=
  ⟨mode, start_value, offset, min PageSpecifier.maxPageSize size, reversed⟩

/-- Source `PageSpecifier.encodeDateTime`: pack the seven fields as
`'%03x%x%02x%02x%02x%02x%05x'`. -/
def PageSpecifier.encodeDateTime (value : PyDateTime) : List Char :=
  hexPadC 3 value.year ++ hexPadC 1 value.month ++ hexPadC 2 value.day ++
  hexPadC 2 value.hour ++ hexPadC 2 value.minute ++ hexPadC 2 value.second ++
  hexPadC 5 value.microsecond

/-- Run `int(_, 16)` on a slice, turning a parse failure into `ValueError`. -/
def hexField (l : List Char) : Except PyErr Int :=
  match parsePyHex l with
  | some n => .ok n
  | none => .error .valueError

/-- Source `PageSpecifier.decodeDateTime`: reject a packed value whose length is
not 17, slice out the fields, parse each as hex, and build the datetime
(whose constructor may itself raise `ValueError`). -/
def PageSpecifier.decodeDateTime (value : List Char) : Except PyErr PyDateTime :=
  if value.length ≠ 17 then .error .valueError
  else do
    let year ← hexField (value.take 3)
    let month ← hexField ((value.drop 3).take 1)
    let day ← hexField ((value.drop 4).take 2)
    let hour ← hexField ((value.drop 6).take 2)
    let minute ← hexField ((value.drop 8).take 2)
    let second ← hexField ((value.drop 10).take 2)
    let microsecond ← hexField (value.drop 12)
    match mkDateTime year month day hour minute second microsecond with
    | some v => .ok v
    | none => .error .valueError

/-- The `kwargs` dictionary accumulated by `PageSpecifier.decode`. -/
structure PageKwargs where
  mode : Option (List Char)
  start_value : Option PyDateTime
  offset : Option Int
  size : Option Int
  reversed : Option Bool

/-- One iteration of the `decode` loop: dispatch on the `k=` marker of a
`;`-separated parameter, ignoring unrecognized parameters. -/
def applyParam (kw : PageKwargs) (param : List Char) : Except PyErr PageKwargs :=
  match param with
  | c1 :: c2 :: rest =>
    if c1 = 'm' ∧ c2 = '=' then .ok { kw with mode := some rest }
    else if c1 = 'd' ∧ c2 = '=' then
      match PageSpecifier.decodeDateTime rest with
      | .ok v => .ok { kw with start_value := some v }
      | .error e => .error e
    else if c1 = 'o' ∧ c2 = '=' then
      match parsePyInt rest with
      | some n => .ok { kw with offset := some n }
      | none => .error .valueError
    else if c1 = 's' ∧ c2 = '=' then
      match parsePyInt rest with
      | some n => .ok { kw with size := some n }
      | none => .error .valueError
    else if c1 = 'r' ∧ c2 = '=' then
      match parsePyInt rest with
      | some n => .ok { kw with reversed := some (n ≠ 0) }
      | none => .error .valueError
    else .ok kw
  | _ => .ok kw

/-- The `decode` loop over all parameters, propagating raised exceptions. -/
def applyParams (kw : PageKwargs) : List (List Char) → Except PyErr PageKwargs
  | [] => .ok kw
  | p :: ps =>
    match applyParam kw p with
    | .ok kw1 => applyParams kw1 ps
    | .error e => .error e

/-- Source `PageSpecifier.decode`: split on `;`, fill `kwargs`, then call the
constructor, which needs `mode` (a missing `mode` raises `TypeError`). -/
def PageSpecifier.decode (encoded : List Char) : Except PyErr PageSpecifier :=
  match applyParams ⟨none, none, none, none, none⟩ (splitOnChar ';' encoded) with
  | .error e => .error e
  | .ok kw =>
    match kw.mode with
    | none => .error .typeError
    | some m =>
      .ok (PageSpecifier.make m kw.start_value (kw.offset.getD 0)
            (kw.size.getD PageSpecifier.defaultSize) (kw.reversed.getD false))

/-- Source `PageSpecifier.encode`: emit `m=`, then `d=`, `o=`, `s=`, `r=` only
when set / nonzero / non-default / true, and join with `;`. -/
def PageSpecifier.encode (p : PageSpecifier) : List Char :=
  let params : List (List Char) :=
    [['m', '='] ++ p.mode] ++
    (match p.start_value with
     | some v => [['d', '='] ++ PageSpecifier.encodeDateTime v]
     | none => []) ++
    (if p.offset ≠ 0 then [['o', '='] ++ intRepr p.offset] else []) ++
    (if p.size ≠ PageSpecifier.defaultSize then [['s', '='] ++ intRepr p.size] else []) ++
    (if p.reversed then [['r', '=', '1']] else [])
  joinWith ';' params

/-! ### `iq/quotes.py`: dialog parsing and line formatters -/

/-- Remove a single trailing `'\r'` from a piece, if present. -/
def dropLastCR : List Char → List Char
  | [] => []
  | [c] => if c = '\r' then [] else [c]
  | c :: d :: rest => c :: dropLastCR (d :: rest)

/-- Apply `f` to every piece but the last. -/
def mapInit (f : List Char → List Char) : List (List Char) → List (List Char)
  | [] => []
  | [p] => [p]
  | p :: ps => f p :: mapInit f ps

/-- Split on the regex `\r?\n` (`LineFormatterRegistry.NL`): equivalently,
split on `'\n'` and remove the one `'\r'` the regex consumes at the end of
every piece except the last. -/
def splitNL (l : List Char) : List (List Char) :=
  mapInit dropLastCR (splitOnChar '\n' l)

/-- Source `len(INDENT.match(line).group(1))`: length of the leading `\s*` run. -/
def indentOf (l : List Char) : Nat :=
  (l.takeWhile isPySpace).length

/-- Source `' '.join(pieces)`. -/
def joinSp : List (List Char) → List Char
  | [] => []
  | [x] => x
  | x :: xs => x ++ ' ' :: joinSp xs

/-- The loop body of `LineFormatterRegistry.parseDialog`: track the
indentation of the line that started the current logical line, flush on a
line indented no deeper, append the stripped physical line, flush the
remainder at the end. -/
def dlgGo (si : Nat) (cur : List (List Char)) : List (List Char) → List (List Char)
  | [] => if cur.isEmpty then [] else [joinSp cur]
  | l :: ls =>
    let ind := indentOf l
    if ind ≤ si then
      (if cur.isEmpty then [] else [joinSp cur]) ++ dlgGo ind [pyStripL l] ls
    else dlgGo si (cur ++ [pyStripL l]) ls

/-- Source `LineFormatterRegistry.parseDialog`, at the level of the logical-line
strings each yielded `Line` is built from: strip the whole dialog, split
into physical lines, and run the indentation loop from indent 0. -/
def parseDialogStrings (dialog : List Char) : List (List Char) :=
  dlgGo 0 [] (splitNL (pyStripL dialog))

/-- A `FormatMatch` produced by one of the two registered formatters,
with its consumed range and extracted parameters (`LineFormatter`
instances carry `range` and `params`; `multiple` is always false here).
The nick case carries `normalized_nick`, `nickflag` and `nick`. -/
inductive FormatMatch
  | ts : Nat × Nat → Nat → Nat → Nat → FormatMatch
  | nick : Nat × Nat → List Char → Option Char → List Char → FormatMatch
deriving DecidableEq, Repr

/-- The `range` attribute of a `FormatMatch`. -/
def FormatMatch.range : FormatMatch → Nat × Nat
  | .ts r _ _ _ => r
  | .nick r _ _ _ => r

/-- Source `line[:range[0]] + line[range[1]:]`: excise a matched range. -/
def excise (l : List Char) (r : Nat × Nat) : List Char :=
  l.take r.1 ++ l.drop r.2

/-- The hour/minute head of `TimestampFormatter.TIME`: `(\d?\d):(\d\d)`
with the regex engine preferring a two-digit hour.  Returns the hour, the
minute, the number of characters consumed, and the rest. -/
def matchHM1 (a : Char) (rest1 : List Char) : Option (Nat × Nat × Nat × List Char) :=
  match rest1 with
  | ':' :: c :: d :: rest2 =>
    if isDigitC c ∧ isDigitC d then
      some (digitVal a, 10 * digitVal c + digitVal d, 4, rest2)
    else none
  | _ => none

/-- Two-digit-hour attempt first, then the one-digit fallback. -/
def matchHM : List Char → Option (Nat × Nat × Nat × List Char)
  | [] => none
  | a :: rest1 =>
    if isDigitC a then
      match rest1 with
      | b :: ':' :: c :: d :: rest2 =>
        if isDigitC b ∧ isDigitC c ∧ isDigitC d then
          some (10 * digitVal a + digitVal b, 10 * digitVal c + digitVal d, 5, rest2)
        else matchHM1 a rest1
      | _ => matchHM1 a rest1
    else none

/-- Source `TimestampFormatter.match`: the anchored regex
`^\s*[\[(]?(\d?\d):(\d\d)(:(\d\d))?[)\]]?\s*`, followed by the
`datetime.time` constructor (which raises `ValueError` out of range).  A
missing seconds group defaults to 0 via `groupdict(0)`. -/
def TimestampFormatter.matchLine (line : List Char) : Except PyErr (Option FormatMatch) :=
  let w0 := (line.takeWhile isPySpace).length
  let l1 := line.drop w0
  let openerAndRest : Nat × List Char :=
    match l1 with
    | c :: rest => if c = '[' ∨ c = '(' then (1, rest) else (0, l1)
    | [] => (0, l1)
  match matchHM openerAndRest.2 with
  | none => .ok none
  | some (h, m, chm, l3) =>
    let secPart : Nat × Nat × List Char :=
      match l3 with
      | ':' :: c :: d :: rest =>
        if isDigitC c ∧ isDigitC d then (10 * digitVal c + digitVal d, 3, rest)
        else (0, 0, l3)
      | _ => (0, 0, l3)
    let closerPart : Nat × List Char :=
      match secPart.2.2 with
      | c :: rest => if c = ')' ∨ c = ']' then (1, rest) else (0, secPart.2.2)
      | [] => (0, secPart.2.2)
    let w1 := (closerPart.2.takeWhile isPySpace).length
    let endPos := w0 + openerAndRest.1 + chm + secPart.2.1 + closerPart.1 + w1
    if h ≤ 23 ∧ m ≤ 59 ∧ secPart.1 ≤ 59 then
      .ok (some (.ts (0, endPos) h m secPart.1))
    else .error .valueError

/-- The character class of `NickFormatter.NICK`'s nick group. -/
def isNickChar (c : Char) : Bool :=
  isWordChar c ∨ c = '`' ∨ c = '[' ∨ c = ']' ∨ c = '{' ∨ c = '}' ∨
  c = '\\' ∨ c = '|' ∨ c = '-'

/-- Opening delimiters `[\[<\(]` of the nick regex. -/
def isNickOpener (c : Char) : Bool :=
  c = '[' ∨ c = '<' ∨ c = '('

/-- The optional flag class `[\s@+]` of the nick regex. -/
def isNickFlag (c : Char) : Bool :=
  isPySpace c ∨ c = '@' ∨ c = '+'

/-- Closing delimiters `[\]>\):]` of the nick regex. -/
def isNickCloser (c : Char) : Bool :=
  c = ']' ∨ c = '>' ∨ c = ')' ∨ c = ':'

/-- Backtracking of the greedy nick group: the longest length `k ≤ kmax`,
`k ≥ 1`, such that the character right after the nick is a closer. -/
def bestNickLen (l : List Char) : Nat → Option Nat
  | 0 => none
  | j + 1 =>
    match l.get? (j + 1) with
    | some c => if isNickCloser c then some (j + 1) else bestNickLen l j
    | none => bestNickLen l j

/-- Match `nick closer+ \s?` at the head of `l`: the nick characters, then
at least one closer, then an optional single whitespace.  Returns the nick
and the number of characters consumed. -/
def nickTail (l : List Char) : Option (List Char × Nat) :=
  let kmax := (l.takeWhile isNickChar).length
  match bestNickLen l kmax with
  | none => none
  | some k =>
    let rest := l.drop k
    let m := (rest.takeWhile isNickCloser).length
    let rest2 := rest.drop m
    let sp : Nat :=
      match rest2 with
      | c :: _ => if isPySpace c then 1 else 0
      | [] => 0
    some (l.take k, k + m + sp)

/-- Match the optional flag then the nick tail, the flag-consuming
alternative first (the regex `?` is greedy). -/
def nickFlagged (l : List Char) : Option (Option Char × List Char × Nat) :=
  (match l with
   | c :: rest =>
     if isNickFlag c then
       (nickTail rest).map (fun p : List Char × Nat => (some c, p.1, 1 + p.2))
     else none
   | [] => none).orElse
  (fun _ => (nickTail l).map (fun p : List Char × Nat => (none, p.1, p.2)))

/-- The raw result of matching `NickFormatter.NICK`: end position of the
match, the `nickflag` group, and the `nick` group. -/
structure NickRaw where
  endPos : Nat
  nickflag : Option Char
  nick : List Char
deriving DecidableEq, Repr

/-- Match the anchored regex `NickFormatter.NICK` against a line:
`^\s*[\[<\(]? [\s@+]? nick [\]>\):]+ \s?` with Python's leftmost-greedy
backtracking (opener alternative first, then flag, then nick length). -/
def nickRegex (line : List Char) : Option NickRaw :=
  let w0 := (line.takeWhile isPySpace).length
  let l1 := line.drop w0
  let viaOpener : Option NickRaw :=
    match l1 with
    | c :: rest =>
      if isNickOpener c then
        (nickFlagged rest).map (fun r : Option Char × List Char × Nat => ⟨w0 + 1 + r.2.2, r.1, r.2.1⟩)
      else none
    | [] => none
  viaOpener.orElse (fun _ => (nickFlagged l1).map (fun r : Option Char × List Char × Nat => ⟨w0 + r.2.2, r.1, r.2.1⟩))

/-- Source `NickFormatter.NORMALIZATION.sub('', nick).lower()`: drop the
characters outside `\w`, then lowercase. -/
def normalizeNick (nick : List Char) : List Char :=
  (nick.filter isWordChar).map pyToLower

/-- Source `NickFormatter.match`: run the regex, reject a nick made of digits
only (`filter(lambda c: not c.isdigit(), nick)` is empty), and otherwise
export `normalized_nick` plus the raw groups. -/
def NickFormatter.matchLine (line : List Char) : Option FormatMatch :=
  match nickRegex line with
  | none => none
  | some r =>
    if (r.nick.filter (fun c => ¬ isDigitC c)).isEmpty then none
    else some (.nick (0, r.endPos) (normalizeNick r.nick) r.nickflag r.nick)

/-- Source `LineFormatterRegistry.parse`: run the registered formatters in order
(`LineFormatter` itself never matches, then `TimestampFormatter`, then
`NickFormatter`), each at most once (`multiple` is false), excising each
matched range from the working line before the next formatter. -/
def registryParse (line : List Char) : Except PyErr (List FormatMatch) :=
  match TimestampFormatter.matchLine line with
  | .error e => .error e
  | .ok none =>
    match NickFormatter.matchLine line with
    | none => .ok []
    | some m => .ok [m]
  | .ok (some m) =>
    let line1 := excise line m.range
    match NickFormatter.matchLine line1 with
    | none => .ok [m]
    | some m2 => .ok [m, m2]

/-- A parsed `Line`: the original logical line and its format matches. -/
structure Line where
  original : List Char
  formatting : List FormatMatch
deriving DecidableEq, Repr

/-- Source `Line.__init__`: keep the original text; skip the registry entirely
when `preserve_formatting` is set. -/
def mkLine (preserve_formatting : Bool) (s : List Char) : Except PyErr Line :=
  if preserve_formatting then .ok ⟨s, []⟩
  else
    match registryParse s with
    | .ok f => .ok ⟨s, f⟩
    | .error e => .error e

/-- Build a `Line` from every logical line in order, stopping at (and
propagating) the first raised exception, as `list()` over the generator
does. -/
def mkLines (preserve_formatting : Bool) : List (List Char) → Except PyErr (List Line)
  | [] => .ok []
  | s :: ss =>
    match mkLine preserve_formatting s with
    | .error e => .error e
    | .ok L =>
      match mkLines preserve_formatting ss with
      | .error e => .error e
      | .ok Ls => .ok (L :: Ls)

/-- Source `LineFormatterRegistry.parseDialog` with `Line` construction. -/
def parseDialogLines (preserve_formatting : Bool) (dialog : List Char) :
    Except PyErr (List Line) :=
  mkLines preserve_formatting (parseDialogStrings dialog)

/-! ### `iq/quotes.py` and `iq/accounts.py`: quote lifecycle over a datastore -/

/-- The persisted fields of a `Quote` entity that the embedded operations
touch (`search.SearchableModel` subclass): text data, state bits,
timestamps and the editing link, plus the entity-group parent account. -/
structure Quote where
  dialog_source : List Char
  formatting : List Line
  preserve_formatting : Bool
  labels : List (List Char)
  deleted : Bool
  draft : Bool
  submitted : Nat
  modified : Option Nat
  built : Nat
  clone_of : Option Nat
  parentAccount : Nat
deriving DecidableEq, Repr

/-- The two counters of an `Account` the lifecycle updates. -/
structure Account where
  quote_count : Int
  draft_count : Int
deriving DecidableEq, Repr

/-- The verbs recorded through `system.record`. -/
inductive Verb
  | published
  | deleted
  | updated
deriving DecidableEq, Repr

/-- The datastore and ambient state: quotes and accounts by key, the
event log, a clock for `datetime.now()`, and the next key to allocate. -/
structure World where
  quotes : List (Nat × Quote)
  accounts : List (Nat × Account)
  events : List (Nat × Verb × Nat)
  now : Nat
  nextKey : Nat
deriving DecidableEq, Repr

/-- Look a key up in an association list. -/
def assocGet (l : List (Nat × α)) (k : Nat) : Option α :=
  (l.find? (fun e => e.1 = k)).map (fun e => e.2)

/-- Store a value under a key: replace in place, or append a fresh entry. -/
def assocSet (l : List (Nat × α)) (k : Nat) (v : α) : List (Nat × α) :=
  if l.any (fun e => e.1 = k) then
    l.map (fun e => if e.1 = k then (k, v) else e)
  else l ++ [(k, v)]

/-- Source `Quote.get(key)` on the datastore. -/
def lookupQuote (w : World) (k : Nat) : Option Quote :=
  assocGet w.quotes k

/-- Source `Account.get(key)` on the datastore. -/
def getAccount (w : World) (k : Nat) : Option Account :=
  assocGet w.accounts k

/-- Persist a quote under an existing key. -/
def putQuoteAt (w : World) (k : Nat) (q : Quote) : World :=
  { w with quotes := assocSet w.quotes k q }

/-- Persist an account under its key. -/
def putAccountAt (w : World) (k : Nat) (a : Account) : World :=
  { w with accounts := assocSet w.accounts k a }

/-- Source `entity.put()`: write back under the entity's key, or allocate a key
for a never-saved entity.  Returns the key the entity now has. -/
def putQuote (w : World) (key : Option Nat) (q : Quote) : Nat × World :=
  match key with
  | some k => (k, putQuoteAt w k q)
  | none =>
    (w.nextKey,
     { w with quotes := assocSet w.quotes w.nextKey q, nextKey := w.nextKey + 1 })

/-- Source `system.record(actor, verb, subject)`: append to the event log. -/
def recordEvent (w : World) (actor : Nat) (verb : Verb) (subject : Nat) : World :=
  { w with events := w.events ++ [(actor, verb, subject)] }

/-- The `normalized_nick` parameters found in a line's formatting. -/
def lineNicks (l : Line) : List (List Char) :=
  l.formatting.filterMap (fun m =>
    match m with
    | .nick _ nn _ _ => some nn
    | .ts _ _ _ _ => none)

/-- Collect values into a set, keeping first-occurrence order. -/
def dedupFirst (l : List (List Char)) : List (List Char) :=
  l.foldl (fun acc x => if x ∈ acc then acc else acc ++ [x]) []

/-- Source `label.strip().lower()`, the canonical form stored by `addLabel`. -/
def procLabel (l : List Char) : List Char :=
  (pyStripL l).map pyToLower

/-- Source `Quote.addLabel`: canonicalize, then append if not already present. -/
def addLabel (labels : List (List Char)) (lbl : List Char) : List (List Char) :=
  let x := procLabel lbl
  if x ∈ labels then labels else labels ++ [x]

/-- The label-adding loop of `rebuild`: `addLabel` over a list of labels. -/
def addLabels (labels : List (List Char)) (ls : List (List Char)) : List (List Char) :=
  ls.foldl addLabel labels

/-- Source `'nick:%s' % nick`. -/
def nickLabel (n : List Char) : List Char :=
  'n' :: 'i' :: 'c' :: 'k' :: ':' :: n

/-- Source `Quote.rebuild`: parse the dialog, store the parsed lines, add a
`nick:` label for every normalized nick found, stamp `built` with the
current time, and `put()`.  A `ValueError` raised while parsing
propagates before any field is assigned. -/
def Quote.rebuild (key : Option Nat) (self : Quote) (w : World) :
    Quote × Option Nat × World × Option PyErr :=
  match parseDialogLines self.preserve_formatting self.dialog_source with
  | .error e => (self, key, w, some e)
  | .ok lines =>
    let nicks := dedupFirst (lines.flatMap lineNicks)
    let self1 : Quote :=
      { self with
        formatting := lines,
        labels := addLabels self.labels (nicks.map nickLabel),
        built := w.now }
    let w1 := { w with now := w.now + 1 }
    let kw := putQuote w1 key self1
    (self1, some kw.1, kw.2, none)

/-- Source `Quote.createDraft`: build a draft quote (parented to the account,
`draft=True`, `submitted` defaulting to now), `rebuild()` it (which also
puts it), then atomically increment the account's `draft_count`. -/
def Quote.createDraft (account : Nat) (source : List Char) (submitted : Option Nat)
    (w : World) : Option (Nat × Quote) × World × Option PyErr :=
  let q0 : Quote :=
    { dialog_source := source
      formatting := []
      preserve_formatting := false
      labels := []
      deleted := false
      draft := true
      submitted := submitted.getD w.now
      modified := none
      built := 0
      clone_of := none
      parentAccount := account }
  match Quote.rebuild none q0 w with
  | (_, _, _, some e) => (none, w, some e)
  | (q1, keyOut, w1, none) =>
    match keyOut with
    | none => (none, w1, some .attrError)
    | some k =>
      match getAccount w1 account with
      | none => (none, w1, some .attrError)
      | some acc =>
        (some (k, q1), putAccountAt w1 account { acc with draft_count := acc.draft_count + 1 }, none)

/-- Source `Quote.edit`: only legal on a published quote owned by the caller;
idempotently return an existing pending-edit clone, else persist a fresh
draft clone of every property and link `clone_of` to it (the published
quote itself is not re-put). -/
def Quote.edit (self : Quote) (account : Nat) (w : World) :
    Quote × World × Except PyErr Nat :=
  if self.draft then (self, w, .error .invalidQuoteState)
  else if account ≠ self.parentAccount then (self, w, .error .noPermission)
  else
    match self.clone_of with
    | some k => (self, w, .ok k)
    | none =>
      let draftQ : Quote := { self with draft := true }
      let kw := putQuote w none draftQ
      ({ self with clone_of := some kw.1 }, kw.2, .ok kw.1)

/-- Source `Quote.unpublish`: set `deleted`, `put()`, and record a `deleted`
event — the method performs no state check. -/
def Quote.unpublish (self : Quote) (key : Nat) (w : World) :
    Quote × World × Option PyErr :=
  let self1 : Quote := { self with deleted := true }
  let w1 := putQuoteAt w key self1
  (self1, recordEvent w1 self1.parentAccount .deleted key, none)

/-- Source `Quote.publish`: reject a non-draft with `InvalidQuoteStateException`;
a draft with `clone_of` set calls `self.clone_of.republish(self, modified=modified)`,
which is a `TypeError` (`republish` takes no positional argument, so
`modified` receives two values); otherwise atomically clear `draft`,
stamp `modified`, `put()`, and move one count from `draft_count` to
`quote_count`, then record a `published` event. -/
def Quote.publish (self : Quote) (key : Nat) (modified : Option Nat) (w : World) :
    Quote × World × Option PyErr :=
  if self.draft = false then (self, w, some .invalidQuoteState)
  else
    match self.clone_of with
    | some _ => (self, w, some .typeError)
    | none =>
      let stamp := modified.getD w.now
      let w0 := { w with now := if modified.isSome then w.now else w.now + 1 }
      let self1 : Quote := { self with draft := false, modified := some stamp }
      let w1 := putQuoteAt w0 key self1
      match getAccount w1 self.parentAccount with
      | none => (self1, { w0 with quotes := w.quotes }, some .attrError)
      | some acc =>
        let w2 := putAccountAt w1 self.parentAccount
          { acc with quote_count := acc.quote_count + 1, draft_count := acc.draft_count - 1 }
        (self1, recordEvent w2 self.parentAccount .published key, none)

/-- The sort property of `getQuotesByTimestamp`. -/
inductive TsProp
  | submitted
  | built
deriving DecidableEq, Repr

/-- Read the sort property off a quote. -/
def propVal : TsProp → Quote → Nat
  | .submitted, q => q.submitted
  | .built, q => q.built

/-- Datastore ordering for the query: by the sort property ascending or
descending, ties by key ascending. -/
def queryLE (prop : TsProp) (descending : Bool) (a b : Nat × Quote) : Bool :=
  if propVal prop a.2 = propVal prop b.2 then a.1 ≤ b.1
  else if descending then propVal prop b.2 < propVal prop a.2
  else propVal prop a.2 < propVal prop b.2

/-- Insertion into a sorted list (stable, used to model the datastore
sort order). -/
def insertSorted (le : α → α → Bool) (x : α) : List α → List α
  | [] => [x]
  | y :: ys => if le x y then x :: y :: ys else y :: insertSorted le x ys

/-- Sort with respect to a boolean order. -/
def sortByB (le : α → α → Bool) (l : List α) : List α :=
  l.foldr (insertSorted le) []

/-- Source `Quote.getQuotesByTimestamp`: filter (ancestor, drafts, deleted,
range bound on the sort property), order by the sort property, fetch
`limit` rows after skipping `offset`.  When a full page came back, scan
backward for the first row whose `submitted` differs from the last row's
`submitted` (note: always `submitted`, whatever `property` is) and return
the last row's `submitted` and `i - 1` as the next start/offset; the scan
variable `i` leaks from a logging comprehension when `limit < 2`, and with
`limit = 0` it is unbound (`NameError`). -/
def Quote.getQuotesByTimestamp (prop : TsProp) (start : Option Nat)
    (offset : Nat) (limit : Nat) (descending : Bool) (include_drafts : Bool)
    (ancestor : Option Nat) (w : World) :
    Except PyErr (List (Nat × Quote) × Option Nat × Int) :=
  let filtered := w.quotes.filter (fun e =>
    (match ancestor with
     | some a => e.2.parentAccount = a
     | none => true) &&
    (include_drafts || e.2.draft = false) &&
    (e.2.deleted = false) &&
    (match start with
     | some s =>
       if descending then propVal prop e.2 ≤ s else s ≤ propVal prop e.2
     | none => true))
  let rows := ((sortByB (queryLE prop descending) filtered).drop offset).take limit
  if rows.length = limit then
    match rows.getLast? with
    | none => .error .nameError
    | some last =>
      let iFinal : Int :=
        if limit < 2 then (rows.length : Int) - 1
        else
          ((List.range' 2 (limit - 1)).find? (fun i =>
            decide (((rows.get? (rows.length - i)).map (fun e => e.2.submitted)) ≠
              some last.2.submitted))).getD limit
      .ok (rows, some last.2.submitted, iFinal - 1)
  else .ok (rows, start, (offset : Int))

/-! ### Specification-side models and concrete example data -/

/-- Modelled from the spec's wording of the dialog algorithm (claim C4):
a physical line indented strictly deeper than the line that started the
current logical line is a continuation; one indented no deeper begins a
new logical line; the last accumulated line is flushed at the end.  The
first physical line starts the first logical line at its own indentation;
there is no whole-text pre-strip here. -/
def specGo (si : Nat) (cur : List (List Char)) : List (List Char) → List (List Char)
  | [] => [joinSp cur]
  | l :: ls =>
    let ind := indentOf l
    if si < ind then specGo si (cur ++ [pyStripL l]) ls
    else joinSp cur :: specGo ind [pyStripL l] ls

/-- The spec-side dialog parser built on `specGo`. -/
def specLogicalLines (text : List Char) : List (List Char) :=
  match splitNL text with
  | [] => []
  | l :: ls => specGo (indentOf l) [pyStripL l] ls

/-- A cursor parameter one of the five `decode` markers recognizes
(used to state what an unrecognized overall cursor string is). -/
def recognizedParam (p : List Char) : Bool :=
  match p with
  | c1 :: c2 :: _ =>
    (c1 = 'm' ∨ c1 = 'd' ∨ c1 = 'o' ∨ c1 = 's' ∨ c1 = 'r') ∧ c2 = '='
  | _ => false

/-- The characters the spec calls alphanumeric (claim C5's normalization
formula: lowercase, strip all non-alphanumerics). -/
def isAlnumC (c : Char) : Bool :=
  ('a' ≤ c ∧ c ≤ 'z') ∨ ('A' ≤ c ∧ c ≤ 'Z') ∨ isDigitC c

/-- Modelled from the spec: `normalized_nick` per claim C5's wording —
the nick lowercased with all non-alphanumeric characters stripped. -/
def specNormalizeNick (nick : List Char) : List Char :=
  (nick.filter isAlnumC).map pyToLower

/-- Number of live (non-deleted) drafts an account owns in the store. -/
def liveDraftCount (w : World) (a : Nat) : Nat :=
  (w.quotes.filter (fun e =>
    e.2.parentAccount = a && e.2.draft = true && e.2.deleted = false)).length

/-- A published quote with `submitted = 100`, used in concrete runs. -/
def q100 : Quote :=
  { dialog_source := []
    formatting := []
    preserve_formatting := false
    labels := []
    deleted := false
    draft := false
    submitted := 100
    modified := none
    built := 50
    clone_of := none
    parentAccount := 0 }

/-- A draft variant of `q100`. -/
def d100 : Quote := { q100 with draft := true }

/-- A store holding five published quotes that share one `submitted`
timestamp (the pagination boundary scenario of claim C1). -/
def w5 : World :=
  { quotes := [(1, q100), (2, q100), (3, q100), (4, q100), (5, q100)]
    accounts := [(0, ⟨0, 0⟩)]
    events := []
    now := 1000
    nextKey := 6 }

/-- A one-quote store holding a single draft, for lifecycle runs. -/
def w1d : World :=
  { quotes := [(1, d100)]
    accounts := [(0, ⟨0, 1⟩)]
    events := []
    now := 1000
    nextKey := 2 }

/-- A sample datetime inside the 17-character packing range. -/
def dt2008 : PyDateTime := ⟨2008, 4, 19, 14, 2, 56, 123456⟩

/-- A sample page specifier for the round-trip witness. -/
def pageRecent : PageSpecifier :=
  ⟨['r', 'e', 'c', 'e', 'n', 't'], some dt2008, 3, 5, true⟩

/-! ## Theorems -/

/-! ### Association-list store lemmas -/

theorem assocGet_assocSet_self (l : List (Nat × α)) (k : Nat) (v : α) :
    assocGet (assocSet l k v) k = some v := by
  unfold assocSet
  by_cases h : l.any (fun e => e.1 = k)
  · simp only [h, if_true]
    induction l with
    | nil => simp at h
    | cons e es ih =>
      by_cases he : e.1 = k
      · simp [assocGet, List.find?_cons, he]
      · have h2 : es.any (fun e => e.1 = k) := by
          simp only [List.any_cons, he] at h
          simpa using h
        simp only [List.map_cons, if_neg he]
        simpa [assocGet, List.find?_cons, he] using ih h2
  · simp only [h, if_false]
    have hnone : l.find? (fun e => e.1 = k) = none := by
      rw [List.find?_eq_none]
      intro x hx
      simp only [List.any_eq_true] at h
      intro hc
      exact h ⟨x, hx, hc⟩
    simp [assocGet, List.find?_append, hnone]

theorem assocGet_append_fresh (l : List (Nat × α)) (k : Nat) (v : α)
    (h : ∀ e ∈ l, e.1 ≠ k) : assocGet (l ++ [(k, v)]) k = some v := by
  have hnone : l.find? (fun e => e.1 = k) = none := by
    rw [List.find?_eq_none]
    intro x hx
    simpa using h x hx
  simp [assocGet, List.find?_append, hnone]

theorem assocSet_fresh (l : List (Nat × α)) (k : Nat) (v : α)
    (h : ∀ e ∈ l, e.1 ≠ k) : assocSet l k v = l ++ [(k, v)] := by
  unfold assocSet
  have : l.any (fun e => e.1 = k) = false := by
    simp only [List.any_eq_false]
    intro x hx
    simpa using h x hx
  simp [this]

/-! ### `addLabel` / `addLabels` lemmas (for rebuild idempotence) -/

theorem mem_addLabel (L : List (List Char)) (x a : List Char) (h : a ∈ L) :
    a ∈ addLabel L x := by
  by_cases hx : procLabel x ∈ L <;> simp [addLabel, hx, h]

theorem procLabel_mem_addLabel (L : List (List Char)) (x : List Char) :
    procLabel x ∈ addLabel L x := by
  by_cases hx : procLabel x ∈ L <;> simp [addLabel, hx]

theorem addLabel_of_mem (L : List (List Char)) (x : List Char)
    (h : procLabel x ∈ L) : addLabel L x = L := by
  simp [addLabel, h]

theorem mem_addLabels (L : List (List Char)) (xs : List (List Char))
    (a : List Char) (h : a ∈ L) : a ∈ addLabels L xs := by
  induction xs generalizing L with
  | nil => exact h
  | cons x xs ih => exact ih _ (mem_addLabel _ _ _ h)

theorem procLabel_mem_addLabels (L : List (List Char)) (xs : List (List Char))
    (x : List Char) (h : x ∈ xs) : procLabel x ∈ addLabels L xs := by
  induction xs generalizing L with
  | nil => cases h
  | cons y ys ih =>
    show procLabel x ∈ addLabels (addLabel L y) ys
    rcases List.mem_cons.mp h with rfl | h2
    · exact mem_addLabels _ _ _ (procLabel_mem_addLabel _ _)
    · exact ih _ h2

theorem addLabels_of_all_mem (L : List (List Char)) (xs : List (List Char))
    (h : ∀ x ∈ xs, procLabel x ∈ L) : addLabels L xs = L := by
  induction xs with
  | nil => rfl
  | cons x ys ih =>
    have hx : addLabel L x = L := addLabel_of_mem _ _ (h x (by simp))
    show addLabels (addLabel L x) ys = L
    rw [hx]
    exact ih (fun y hy => h y (by simp [hy]))

theorem addLabels_idem (L : List (List Char)) (xs : List (List Char)) :
    addLabels (addLabels L xs) xs = addLabels L xs :=
  addLabels_of_all_mem _ _ (fun x hx => procLabel_mem_addLabels _ _ _ hx)

/-! ### Claim C9: rebuild is idempotent on formatting and labels -/

/-- C9: applying `Quote.rebuild` twice in succession with no intervening
change to `dialog_source` or `preserve_formatting` leaves the stored
parsed lines (`formatting`) and `labels` after the second call identical
to what they were after the first call. -/
theorem rebuild_idempotent (key : Option Nat) (q : Quote) (w : World) :
    ((Quote.rebuild ((Quote.rebuild key q w).2.1) ((Quote.rebuild key q w).1)
        ((Quote.rebuild key q w).2.2.1)).1.formatting =
      (Quote.rebuild key q w).1.formatting) ∧
    ((Quote.rebuild ((Quote.rebuild key q w).2.1) ((Quote.rebuild key q w).1)
        ((Quote.rebuild key q w).2.2.1)).1.labels =
      (Quote.rebuild key q w).1.labels) := by
  unfold Quote.rebuild
  cases h : parseDialogLines q.preserve_formatting q.dialog_source with
  | error e => simp [h]
  | ok lines => simp [h, addLabels_idem]

/-! ### Claim C6: publish on a non-draft fails before any mutation -/

/-- C6: for every quote that is not a draft, `publish` raises
`InvalidQuoteStateException` and both the quote's fields and the world
(hence the owning account's `quote_count` and `draft_count`) are exactly
as before the call. -/
theorem publish_nondraft_rejected (q : Quote) (key : Nat) (modified : Option Nat)
    (w : World) (h : q.draft = false) :
    Quote.publish q key modified w = (q, w, some PyErr.invalidQuoteState) := by
  simp [Quote.publish, h]

/-- Witness for C6 at a concrete published quote and world. -/
theorem publish_nondraft_rejected_witness :
    q100.draft = false ∧
    Quote.publish q100 1 none w5 = (q100, w5, some PyErr.invalidQuoteState) :=
  ⟨by decide, publish_nondraft_rejected q100 1 none w5 (by decide)⟩

/-! ### Claim C7: edit permissions, state check, and idempotence -/

/-- C7: on a published quote `edit` raises `NoPermissionException` for a
non-owner (leaving everything unchanged), raises
`InvalidQuoteStateException` on a draft, and a second owner call on the
result of a first call returns the very same draft with the world
unchanged (no second clone is created). -/
theorem edit_permission_state_idempotent :
    (∀ (q : Quote) (a : Nat) (w : World), q.draft = false → a ≠ q.parentAccount →
      Quote.edit q a w = (q, w, .error PyErr.noPermission)) ∧
    (∀ (q : Quote) (a : Nat) (w : World), q.draft = true →
      Quote.edit q a w = (q, w, .error PyErr.invalidQuoteState)) ∧
    (∀ (q : Quote) (a : Nat) (w : World), q.draft = false → a = q.parentAccount →
      Quote.edit (Quote.edit q a w).1 a (Quote.edit q a w).2.1 = Quote.edit q a w) := by
  refine ⟨?_, ?_, ?_⟩
  · intro q a w hd hp
    simp [Quote.edit, hd, hp]
  · intro q a w hd
    simp [Quote.edit, hd]
  · intro q a w hd hp
    cases hc : q.clone_of with
    | some k => simp [Quote.edit, hd, hp, hc]
    | none => simp [Quote.edit, hd, hp, hc, putQuote]

/-- Witness for C7: the three parts at concrete quotes and worlds. -/
theorem edit_permission_state_idempotent_witness :
    (Quote.edit q100 7 w5 = (q100, w5, .error PyErr.noPermission)) ∧
    (Quote.edit d100 0 w5 = (d100, w5, .error PyErr.invalidQuoteState)) ∧
    (Quote.edit (Quote.edit q100 0 w5).1 0 (Quote.edit q100 0 w5).2.1 =
      Quote.edit q100 0 w5) :=
  ⟨edit_permission_state_idempotent.1 q100 7 w5 (by decide) (by decide),
   edit_permission_state_idempotent.2.1 d100 0 w5 (by decide),
   edit_permission_state_idempotent.2.2 q100 0 w5 (by decide) (by decide)⟩

/-! ### Claim C8: unpublish has no state check -/

/-- Counterexample to C8 as stated: on a draft quote, `unpublish` raises
no typed state error at all — it returns no exception and performs the
soft delete, so the claim's error-and-no-mutation behaviour is false. -/
theorem unpublish_draft_no_state_error :
    d100.draft = true ∧
    (Quote.unpublish d100 1 w1d).2.2 = none ∧
    (Quote.unpublish d100 1 w1d).1.deleted = true := by
  refine ⟨by decide, by decide, by decide⟩

/-- C8 amended: `unpublish` performs no state check.  Invoked on a quote
in any state (draft included) it raises nothing, sets `deleted = true`,
persists the quote, and emits a `Deleted` event; in particular on a
published quote it soft-deletes and emits the event as claimed. -/
theorem unpublish_soft_deletes_any_state (q : Quote) (key : Nat) (w : World) :
    (Quote.unpublish q key w).2.2 = none ∧
    (Quote.unpublish q key w).1 = { q with deleted := true } ∧
    (Quote.unpublish q key w).2.1.events =
      w.events ++ [(q.parentAccount, Verb.deleted, key)] ∧
    lookupQuote (Quote.unpublish q key w).2.1 key = some { q with deleted := true } := by
  refine ⟨rfl, rfl, by simp [Quote.unpublish, recordEvent, putQuoteAt], ?_⟩
  simp [Quote.unpublish, recordEvent, putQuoteAt, lookupQuote]
  exact assocGet_assocSet_self _ _ _

/-! ### Claim C1: the page-boundary tie handling is off by one -/

/-- C1 at its own boundary example: five published quotes share one
`submitted` timestamp and the page size is 3.  The first page returns
keys 1-3 but the next cursor carries `offset = 2` (not 3 as the claim
states): the backward scan loop leaves `i = limit` when every returned
row ties, and `offset` is set to `i - 1`.  Decoding that cursor, the
second page returns three rows again — re-serving key 3 — and, being a
full page, signals a further page instead of ending the listing. -/
theorem getQuotesByTimestamp_tie_off_by_one :
    Quote.getQuotesByTimestamp .submitted none 0 3 false true none w5 =
      .ok ([(1, q100), (2, q100), (3, q100)], some 100, 2) ∧
    Quote.getQuotesByTimestamp .submitted (some 100) 2 3 false true none w5 =
      .ok ([(3, q100), (4, q100), (5, q100)], some 100, 2) := by
  refine ⟨by rfl, by rfl⟩

/-! ### Claim C10: edit persists a draft without touching draft_count -/

theorem rebuild_accounts (key : Option Nat) (q : Quote) (w : World) :
    (Quote.rebuild key q w).2.2.1.accounts = w.accounts := by
  unfold Quote.rebuild
  cases h : parseDialogLines q.preserve_formatting q.dialog_source with
  | error e => simp [h]
  | ok lines =>
    cases key with
    | none => simp [h, putQuote]
    | some k => simp [h, putQuote, putQuoteAt]

/-- C10: on a published, non-deleted, clone-free quote, `edit` by the
owner persists a brand-new draft (a fresh key now mapping to the cloned
draft) while leaving the account store — hence `draft_count` — untouched,
so the count of live drafts rises by one and `draft_count` falls one
short of it; `createDraft`, by contrast, increments `draft_count`. -/
theorem edit_leaves_draft_count_stale :
    (∀ (w : World) (q : Quote) (a : Nat),
      q.draft = false → q.deleted = false → q.clone_of = none →
      q.parentAccount = a → (∀ e ∈ w.quotes, e.1 ≠ w.nextKey) →
      (Quote.edit q a w).2.2 = .ok w.nextKey ∧
      (Quote.edit q a w).2.1.accounts = w.accounts ∧
      lookupQuote w w.nextKey = none ∧
      lookupQuote (Quote.edit q a w).2.1 w.nextKey = some { q with draft := true } ∧
      liveDraftCount (Quote.edit q a w).2.1 a = liveDraftCount w a + 1 ∧
      (∀ ad : Account, getAccount w a = some ad →
        getAccount (Quote.edit q a w).2.1 a = some ad ∧
        (ad.draft_count = (liveDraftCount w a : Int) →
          ad.draft_count = (liveDraftCount (Quote.edit q a w).2.1 a : Int) - 1))) ∧
    (∀ (w : World) (a : Nat) (src : List Char) (sub : Option Nat) (k : Nat)
      (q1 : Quote) (w1 : World) (ad : Account),
      Quote.createDraft a src sub w = (some (k, q1), w1, none) →
      getAccount w a = some ad →
      getAccount w1 a = some { ad with draft_count := ad.draft_count + 1 }) := by
  constructor
  · intro w q a hd hdel hc hp hfresh
    subst hp
    have he : Quote.edit q q.parentAccount w =
        ({ q with clone_of := some w.nextKey },
         { w with quotes := w.quotes ++ [(w.nextKey, { q with draft := true })],
                  nextKey := w.nextKey + 1 }, .ok w.nextKey) := by
      simp [Quote.edit, hd, hc, putQuote, assocSet_fresh _ _ _ hfresh]
    have hlookup : lookupQuote w w.nextKey = none := by
      have : w.quotes.find? (fun e => e.1 = w.nextKey) = none :=
        List.find?_eq_none.mpr (fun x hx => by simpa using hfresh x hx)
      simp [lookupQuote, assocGet, this]
    have hlive : liveDraftCount (Quote.edit q q.parentAccount w).2.1 q.parentAccount =
        liveDraftCount w q.parentAccount + 1 := by
      rw [he]
      simp [liveDraftCount, List.filter_append, hdel]
    refine ⟨by rw [he], by rw [he], hlookup, ?_, hlive, ?_⟩
    · rw [he]
      exact assocGet_append_fresh _ _ _ hfresh
    · intro ad had
      have hacc : getAccount (Quote.edit q q.parentAccount w).2.1 q.parentAccount =
          some ad := by
        rw [he]
        simpa [getAccount, assocGet] using had
      refine ⟨hacc, ?_⟩
      intro hcount
      rw [hlive]
      push_cast
      omega
  · intro w a src sub k q1 w1 ad hcd had
    simp only [Quote.createDraft] at hcd
    rcases hr : Quote.rebuild none
        ⟨src, [], false, [], false, true, sub.getD w.now, none, 0, none, a⟩ w with
      ⟨qa, ko, wa, err⟩
    rw [hr] at hcd
    have hwa : wa.accounts = w.accounts := by
      have := rebuild_accounts none
        ⟨src, [], false, [], false, true, sub.getD w.now, none, 0, none, a⟩ w
      rw [hr] at this
      exact this
    cases err with
    | some e => simp at hcd
    | none =>
      cases ko with
      | none => simp at hcd
      | some kk =>
        have hacc : getAccount wa a = some ad := by
          simpa [getAccount, assocGet, hwa] using had
        dsimp only at hcd
        rw [hacc] at hcd
        simp only [Prod.mk.injEq] at hcd
        rcases hcd with ⟨-, hw1, -⟩
        rw [← hw1]
        exact assocGet_assocSet_self _ _ _

/-- Witness for C10: a concrete published quote, account and store. -/
theorem edit_leaves_draft_count_stale_witness :
    ((Quote.edit q100 0 w5).2.2 = .ok w5.nextKey ∧
      (Quote.edit q100 0 w5).2.1.accounts = w5.accounts ∧
      lookupQuote w5 w5.nextKey = none ∧
      lookupQuote (Quote.edit q100 0 w5).2.1 w5.nextKey =
        some { q100 with draft := true } ∧
      liveDraftCount (Quote.edit q100 0 w5).2.1 0 = liveDraftCount w5 0 + 1 ∧
      (∀ ad : Account, getAccount w5 0 = some ad →
        getAccount (Quote.edit q100 0 w5).2.1 0 = some ad ∧
        (ad.draft_count = (liveDraftCount w5 0 : Int) →
          ad.draft_count = (liveDraftCount (Quote.edit q100 0 w5).2.1 0 : Int) - 1))) ∧
    (∀ ad : Account, getAccount w5 0 = some ad →
      getAccount (Quote.createDraft 0 ['h', 'i'] (some 7) w5).2.1 0 =
        some { ad with draft_count := ad.draft_count + 1 }) := by
  constructor
  · exact edit_leaves_draft_count_stale.1 w5 q100 0 (by decide) (by decide) (by decide)
      (by decide) (by decide)
  · intro ad had
    exact edit_leaves_draft_count_stale.2 w5 0 ['h', 'i'] (some 7) 6
      { dialog_source := ['h', 'i']
        formatting := [{ original := ['h', 'i'], formatting := [] }]
        preserve_formatting := false
        labels := []
        deleted := false
        draft := true
        submitted := 7
        modified := none
        built := 1000
        clone_of := none
        parentAccount := 0 }
      (Quote.createDraft 0 ['h', 'i'] (some 7) w5).2.1 ad (by decide) had

/-! ### Claim C4: dialog continuation merging -/

theorem splitOnChar_ne_nil (sep : Char) (l : List Char) : splitOnChar sep l ≠ [] := by
  cases l with
  | nil => simp [splitOnChar]
  | cons c rest =>
    by_cases h : c = sep
    · simp [splitOnChar, h]
    · simp only [splitOnChar, if_neg h]
      cases splitOnChar sep rest <;> simp [consHead]

theorem dropWhile_head_false {p : Char → Bool} {l : List Char} {c : Char}
    {r : List Char} (h : l.dropWhile p = c :: r) : p c = false := by
  induction l with
  | nil => simp at h
  | cons a as ih =>
    by_cases hp : p a
    · rw [List.dropWhile_cons_of_pos hp] at h
      exact ih h
    · rw [List.dropWhile_cons_of_neg hp] at h
      cases h
      simpa using hp

theorem dropTrailing_head {l : List Char} {c : Char} {r : List Char}
    (h : dropTrailing l = c :: r) : ∃ t : List Char, l = c :: t := by
  cases l with
  | nil => simp [dropTrailing] at h
  | cons a as =>
    refine ⟨as, ?_⟩
    unfold dropTrailing at h
    rcases hd : dropTrailing as with - | ⟨b, bs⟩ <;> rw [hd] at h
    · by_cases hs : isPySpace a
      · simp [hs] at h
      · simp [hs] at h
        simp [h.1]
    · cases h
      rfl

theorem pyStripL_head_not_space {l : List Char} {c : Char} {r : List Char}
    (h : pyStripL l = c :: r) : isPySpace c = false := by
  unfold pyStripL at h
  obtain ⟨t, ht⟩ := dropTrailing_head h
  exact dropWhile_head_false ht

theorem splitNL_head_of_not_space {c : Char} (rest : List Char)
    (hc : isPySpace c = false) :
    ∃ p ps, splitNL (c :: rest) = (c :: p) :: ps := by
  have hn : c ≠ '\n' := by
    intro he
    rw [he] at hc
    simp [isPySpace] at hc
  have hr : c ≠ '\r' := by
    intro he
    rw [he] at hc
    simp [isPySpace] at hc
  unfold splitNL
  rw [splitOnChar]
  rw [if_neg hn]
  rcases hs : splitOnChar '\n' rest with - | ⟨p, ps⟩
  · exact absurd hs (splitOnChar_ne_nil _ _)
  · cases ps with
    | nil => exact ⟨p, [], rfl⟩
    | cons q qs =>
      cases p with
      | nil =>
        exact ⟨[], mapInit dropLastCR (q :: qs), by simp [consHead, mapInit, dropLastCR, hr]⟩
      | cons d ds =>
        exact ⟨dropLastCR (d :: ds), mapInit dropLastCR (q :: qs),
          by simp [consHead, mapInit, dropLastCR]⟩

theorem dlgGo_eq_specGo (ls : List (List Char)) (si : Nat) (c : List Char)
    (cs : List (List Char)) : dlgGo si (c :: cs) ls = specGo si (c :: cs) ls := by
  induction ls generalizing si c cs with
  | nil => simp [dlgGo, specGo]
  | cons l ls ih =>
    by_cases h : indentOf l ≤ si
    · have h2 : ¬ si < indentOf l := by omega
      simp only [dlgGo, specGo, if_pos h, if_neg h2, List.isEmpty_cons]
      simp [ih]
    · have h2 : si < indentOf l := by omega
      simp only [dlgGo, specGo, if_neg h, if_pos h2]
      have : c :: cs ++ [pyStripL l] = c :: (cs ++ [pyStripL l]) := by simp
      rw [this, ih]

theorem parseDialogStrings_eq_spec (t : List Char) :
    parseDialogStrings t = specLogicalLines (pyStripL t) := by
  rcases hs : pyStripL t with - | ⟨c, rest⟩
  · unfold parseDialogStrings
    rw [hs]
    rfl
  · have hc : isPySpace c = false := pyStripL_head_not_space hs
    obtain ⟨p, ps, hsp⟩ := splitNL_head_of_not_space rest hc
    have hind : indentOf (c :: p) = 0 := by
      simp [indentOf, List.takeWhile, hc]
    unfold parseDialogStrings specLogicalLines
    rw [hs, hsp]
    simp only [dlgGo, hind, Nat.le_refl, if_pos, List.isEmpty_nil, if_true]
    simp only [List.nil_append]
    exact dlgGo_eq_specGo _ _ _ _

theorem mkLine_original {pf : Bool} {s : List Char} {L : Line}
    (h : mkLine pf s = .ok L) : L.original = s := by
  unfold mkLine at h
  by_cases hp : pf
  · simp [hp] at h
    rw [← h]
  · simp [hp] at h
    cases hr : registryParse s <;> rw [hr] at h <;> simp at h
    rw [← h]

theorem mkLines_originals {pf : Bool} (ss : List (List Char)) :
    ∀ lines : List Line, mkLines pf ss = .ok lines →
      lines.map Line.original = ss := by
  induction ss with
  | nil =>
    intro lines h
    simp [mkLines] at h
    simp [← h]
  | cons a as ih =>
    intro lines h
    unfold mkLines at h
    cases hma : mkLine pf a with
    | error e => rw [hma] at h; simp at h
    | ok la =>
      rw [hma] at h
      cases hml : mkLines pf as with
      | error e => rw [hml] at h; simp at h
      | ok ls2 =>
        rw [hml] at h
        simp at h
        rw [← h]
        simp [mkLine_original hma, ih ls2 hml]

/-- Counterexample to C4 as stated: on the input text consisting of the
physical lines `"  a"` (indentation 2) and `" b"` (indentation 1), the
claim's rule — indentation less than or equal to that of the line that
started the current logical line begins a new logical line — yields the
two logical lines `"a"` and `"b"`, but the parser (which first strips the
whole text, so the first line's indentation becomes 0) merges them into
the single logical line `"a b"`. -/
theorem parseDialog_initial_strip_cex :
    parseDialogStrings "  a\n b".toList = ["a b".toList] ∧
    specLogicalLines "  a\n b".toList = ["a".toList, "b".toList] ∧
    parseDialogStrings "  a\n b".toList ≠ specLogicalLines "  a\n b".toList := by
  refine ⟨by decide, by decide, by decide⟩

/-- C4 amended: the parser first strips leading and trailing whitespace
from the whole input; on the stripped text it behaves exactly as the
claim's rule says (deeper-indented physical lines are stripped and
space-joined onto the current logical line, lines indented no deeper
begin a new one, and the last accumulated line is flushed), and on
`"a\n  b\nc"` it yields exactly the logical lines `"a b"` and `"c"`.
Every `Line` produced by the full parser carries those strings as its
`original`. -/
theorem parseDialog_continuation_after_strip :
    (∀ t : List Char, parseDialogStrings t = specLogicalLines (pyStripL t)) ∧
    parseDialogStrings "a\n  b\nc".toList = ["a b".toList, "c".toList] ∧
    (∀ (pf : Bool) (t : List Char) (lines : List Line),
      parseDialogLines pf t = .ok lines →
      lines.map Line.original = specLogicalLines (pyStripL t)) := by
  refine ⟨parseDialogStrings_eq_spec, by decide, ?_⟩
  intro pf t lines h
  rw [← parseDialogStrings_eq_spec]
  exact mkLines_originals _ _ h

/-- Witness for the amended C4 at a concrete dialog with a parse run. -/
theorem parseDialog_continuation_witness :
    parseDialogLines false "a\n  b\nc".toList =
      .ok [⟨"a b".toList, []⟩, ⟨"c".toList, []⟩] ∧
    [Line.mk "a b".toList [], Line.mk "c".toList []].map Line.original =
      specLogicalLines (pyStripL "a\n  b\nc".toList) :=
  ⟨by decide,
   parseDialog_continuation_after_strip.2.2 false "a\n  b\nc".toList
     [⟨"a b".toList, []⟩, ⟨"c".toList, []⟩] (by decide)⟩

/-! ### Claim C5: NickFormatter matching and normalization -/

/-- Counterexample to C5 as stated: the nick `a_b` matches, and the code
keeps the underscore (the normalization strips `[^\w\d]`, and `\w`
includes `_`), so `normalized_nick` is `a_b` and not the claim's
"lowercased with all non-alphanumeric characters stripped" `ab`. -/
theorem nick_normalization_underscore_cex :
    NickFormatter.matchLine "<a_b> x".toList =
      some (.nick (0, 6) "a_b".toList none "a_b".toList) ∧
    specNormalizeNick "a_b".toList = "ab".toList ∧
    "a_b".toList ≠ "ab".toList := by
  refine ⟨by decide, by decide, by decide⟩

/-- C5 amended: `"<bob> hello"` matches with nick `bob`, normalized nick
`bob`, and a consumed range whose excision leaves exactly `"hello"`; a
line whose captured nick consists entirely of digits yields no match (in
particular `"<123> hi"`); and for every successful match,
`normalized_nick` is the captured nick lowercased with every character
other than letters, digits and underscore stripped. -/
theorem nickformatter_match_normalizes :
    (NickFormatter.matchLine "<bob> hello".toList =
        some (.nick (0, 6) "bob".toList none "bob".toList) ∧
      excise "<bob> hello".toList (0, 6) = "hello".toList) ∧
    (NickFormatter.matchLine "<123> hi".toList = none ∧
      ∀ (l : List Char) (r : NickRaw), nickRegex l = some r →
        r.nick.all isDigitC = true → NickFormatter.matchLine l = none) ∧
    (∀ (l : List Char) (rng : Nat × Nat) (nn : List Char) (fl : Option Char)
      (nk : List Char),
      NickFormatter.matchLine l = some (.nick rng nn fl nk) →
      nn = (nk.filter isWordChar).map pyToLower) := by
  refine ⟨⟨by decide, by decide⟩, ⟨by decide, ?_⟩, ?_⟩
  · intro l r hreg hdig
    have hfil : r.nick.filter (fun c => ¬ isDigitC c) = [] := by
      rw [List.filter_eq_nil_iff]
      intro a ha
      simp only [List.all_eq_true] at hdig
      simp [hdig a ha]
    simp only [NickFormatter.matchLine, hreg, hfil]
    simp
  · intro l rng nn fl nk h
    unfold NickFormatter.matchLine at h
    cases hreg : nickRegex l with
    | none => rw [hreg] at h; cases h
    | some r =>
      rw [hreg] at h
      by_cases he : (r.nick.filter (fun c => ¬ isDigitC c)).isEmpty
      · simp [he] at h
        obtain ⟨x, hx, hxd⟩ := h.1
        have hnil := List.isEmpty_iff.mp he
        rw [List.filter_eq_nil_iff] at hnil
        have := hnil x hx
        simp [hxd] at this
      · simp only [he, Bool.false_eq_true, if_false, Option.some.injEq] at h
        cases h
        rfl

/-- Witness for the amended C5: the universal parts applied at the
concrete digit line `"<123> hi"` and at `"<bob> hello"`. -/
theorem nickformatter_match_normalizes_witness :
    NickFormatter.matchLine "<123> hi".toList = none ∧
    "bob".toList = ("bob".toList.filter isWordChar).map pyToLower :=
  ⟨nickformatter_match_normalizes.2.1.2 "<123> hi".toList ⟨6, none, "123".toList⟩
      (by decide) (by decide),
   nickformatter_match_normalizes.2.2 "<bob> hello".toList (0, 6) "bob".toList
      none "bob".toList (by decide)⟩

/-! ### Numeral lemmas -/

theorem digitsRevFuel_zero (b : Nat) : ∀ fuel, digitsRevFuel b fuel 0 = []
  | 0 => rfl
  | _ + 1 => by simp [digitsRevFuel]

theorem digitsRevFuel_adequate (b : Nat) (n : Nat) :
    ∀ fuel, n ≤ fuel → digitsRevFuel b fuel n = digitsRevB b n := by
  induction n using Nat.strong_induction_on with
  | _ n ih =>
    intro fuel hf
    cases hn : n with
    | zero => rw [digitsRevFuel_zero]; rfl
    | succ m =>
      cases fuel with
      | zero => omega
      | succ f =>
        by_cases hb : b ≤ 1
        · simp [digitsRevFuel, digitsRevB, hb]
        · have hne : ¬ (m + 1 = 0 ∨ b ≤ 1) := by omega
          have hstep : (m + 1) / b < m + 1 := Nat.div_lt_self (by omega) (by omega)
          subst hn
          show digitsRevFuel b (f + 1) (m + 1) = digitsRevFuel b (m + 1) (m + 1)
          simp only [digitsRevFuel, if_neg hne]
          rw [ih ((m + 1) / b) hstep f (by omega), ih ((m + 1) / b) hstep m (by omega)]

theorem digitsRevB_eq (b n : Nat) (hb : 2 ≤ b) (hn : n ≠ 0) :
    digitsRevB b n = n % b :: digitsRevB b (n / b) := by
  cases n with
  | zero => omega
  | succ m =>
    have hne : ¬ (m + 1 = 0 ∨ b ≤ 1) := by omega
    show digitsRevFuel b (m + 1) (m + 1) = _
    simp only [digitsRevFuel, if_neg hne]
    rw [digitsRevFuel_adequate b ((m + 1) / b) m (by
      have : (m + 1) / b < m + 1 := Nat.div_lt_self (by omega) (by omega)
      omega)]

theorem reprB_zero (b : Nat) : reprB b 0 = [0] := rfl

theorem reprB_small (b n : Nat) (hn : n ≠ 0) (h : n < b) : reprB b n = [n] := by
  have hb : 2 ≤ b := by omega
  unfold reprB
  rw [if_neg hn, digitsRevB_eq b n hb hn]
  rw [Nat.mod_eq_of_lt h, Nat.div_eq_of_lt h]
  rfl

theorem reprB_step (b n : Nat) (hb : 2 ≤ b) (h : b ≤ n) :
    reprB b n = reprB b (n / b) ++ [n % b] := by
  have hn : n ≠ 0 := by omega
  have hq : n / b ≠ 0 := by
    have h1 : 1 ≤ n / b := (Nat.one_le_div_iff (by omega : 0 < b)).mpr h
    omega
  unfold reprB
  rw [if_neg hn, if_neg hq, digitsRevB_eq b n hb hn]
  simp

theorem valB_append_digit (b : Nat) (ds : List Nat) (d : Nat) :
    valB b (ds ++ [d]) = b * valB b ds + d := by
  simp [valB, List.foldl_append]

theorem valB_reprB (b : Nat) (hb : 2 ≤ b) : ∀ n, valB b (reprB b n) = n := by
  intro n
  induction n using Nat.strong_induction_on with
  | _ n ih =>
    rcases Nat.lt_or_ge n b with h | h
    · rcases Nat.eq_zero_or_pos n with rfl | hp
      · simp [reprB_zero, valB]
      · rw [reprB_small b n (by omega) h]
        simp [valB]
    · rw [reprB_step b n hb h, valB_append_digit,
        ih (n / b) (Nat.div_lt_self (by omega) (by omega))]
      exact Nat.div_add_mod n b

theorem reprB_digits_lt (b : Nat) (hb : 2 ≤ b) : ∀ n d, d ∈ reprB b n → d < b := by
  intro n
  induction n using Nat.strong_induction_on with
  | _ n ih =>
    intro d hd
    rcases Nat.lt_or_ge n b with h | h
    · rcases Nat.eq_zero_or_pos n with rfl | hp
      · simp [reprB_zero] at hd
        omega
      · rw [reprB_small b n (by omega) h] at hd
        simp at hd
        omega
    · rw [reprB_step b n hb h] at hd
      rcases List.mem_append.mp hd with h2 | h2
      · exact ih (n / b) (Nat.div_lt_self (by omega) (by omega)) d h2
      · simp at h2
        have := Nat.mod_lt n (by omega : 0 < b)
        omega

theorem reprB_ne_nil (b n : Nat) (hb : 2 ≤ b) : reprB b n ≠ [] := by
  rcases Nat.eq_zero_or_pos n with rfl | hp
  · simp [reprB_zero]
  · rcases Nat.lt_or_ge n b with h | h
    · simp [reprB_small b n (by omega) h]
    · simp [reprB_step b n hb h]

theorem reprB_length_le (b : Nat) (hb : 2 ≤ b) :
    ∀ n w, n < b ^ w → 1 ≤ w → (reprB b n).length ≤ w := by
  intro n
  induction n using Nat.strong_induction_on with
  | _ n ih =>
    intro w hw h1
    rcases Nat.lt_or_ge n b with h | h
    · rcases Nat.eq_zero_or_pos n with rfl | hp
      · simp [reprB_zero]; omega
      · rw [reprB_small b n (by omega) h]; simp; omega
    · have hw2 : 2 ≤ w := by
        by_contra hc
        have : w = 1 := by omega
        subst this
        simp at hw
        omega
      rw [reprB_step b n hb h]
      rw [List.length_append]
      have hq : n / b < b ^ (w - 1) := by
        rw [Nat.div_lt_iff_lt_mul (by omega : 0 < b)]
        calc n < b ^ w := hw
        _ = b ^ (w - 1) * b := by
          rw [← Nat.pow_succ]
          congr 1
          omega
      have := ih (n / b) (Nat.div_lt_self (by omega) (by omega)) (w - 1) hq (by omega)
      simp
      omega

/-! ### Character-level numeral lemmas -/

theorem hexCharVal_hexDigitChar : ∀ d, d < 16 → hexCharVal (hexDigitChar d) = d := by
  decide

theorem isHexDigitC_hexDigitChar : ∀ d, d < 16 → isHexDigitC (hexDigitChar d) = true := by
  decide

theorem isDigitC_hexDigitChar : ∀ d, d < 10 → isDigitC (hexDigitChar d) = true := by
  decide

theorem hexDigitChar_plain : ∀ d, d < 16 →
    isPySpace (hexDigitChar d) = false ∧ hexDigitChar d ≠ '+' ∧
    hexDigitChar d ≠ '-' ∧ hexDigitChar d ≠ 'x' ∧ hexDigitChar d ≠ 'X' ∧
    hexDigitChar d ≠ ';' := by
  decide

theorem foldl_map_hexDigitChar (b : Nat) (ds : List Nat) :
    ∀ a, (∀ d ∈ ds, d < 16) →
      List.foldl (fun a c => b * a + hexCharVal c) a (ds.map hexDigitChar) =
        List.foldl (fun a d => b * a + d) a ds := by
  induction ds with
  | nil => intro a _; rfl
  | cons e es ih =>
    intro a h
    simp only [List.map_cons, List.foldl_cons]
    rw [hexCharVal_hexDigitChar e (h e (by simp))]
    exact ih _ (fun d hd => h d (by simp [hd]))

theorem valCB_map_hexDigitChar (b : Nat) (ds : List Nat) (h : ∀ d ∈ ds, d < 16) :
    valCB b (ds.map hexDigitChar) = valB b ds :=
  foldl_map_hexDigitChar b ds 0 h

theorem valCB_replicate_zero (b : Nat) (k : Nat) (l : List Char) :
    valCB b (List.replicate k '0' ++ l) = valCB b l := by
  unfold valCB
  rw [List.foldl_append]
  have : List.foldl (fun a c => b * a + hexCharVal c) 0 (List.replicate k '0') = 0 := by
    induction k with
    | zero => rfl
    | succ m ihm => simpa [List.replicate_succ, hexCharVal, isDigitC, digitVal] using ihm
  rw [this]

theorem hexPadC_chars (w n : Nat) :
    ∀ c ∈ hexPadC w n, ∃ d, d < 16 ∧ c = hexDigitChar d := by
  intro c hc
  unfold hexPadC hexOfNat at hc
  rcases List.mem_append.mp hc with h | h
  · exact ⟨0, by omega, by simpa using (List.eq_of_mem_replicate h)⟩
  · obtain ⟨d, hd, rfl⟩ := List.mem_map.mp h
    exact ⟨d, reprB_digits_lt 16 (by omega) n d hd, rfl⟩

theorem hexPadC_length (w n : Nat) (hw : 1 ≤ w) (hn : n < 16 ^ w) :
    (hexPadC w n).length = w := by
  unfold hexPadC
  rw [List.length_append, List.length_replicate]
  have : (hexOfNat n).length ≤ w := by
    unfold hexOfNat
    rw [List.length_map]
    exact reprB_length_le 16 (by omega) n w hn hw
  omega

theorem hexPadC_ne_nil (w n : Nat) (hw : 1 ≤ w) (hn : n < 16 ^ w) :
    hexPadC w n ≠ [] := by
  intro h
  have := hexPadC_length w n hw hn
  rw [h] at this
  simp at this
  omega

theorem valCB_hexPadC (w n : Nat) : valCB 16 (hexPadC w n) = n := by
  unfold hexPadC hexOfNat
  rw [valCB_replicate_zero]
  rw [valCB_map_hexDigitChar 16 _ (reprB_digits_lt 16 (by omega) n)]
  exact valB_reprB 16 (by omega) n

/-! ### `pyStripL` on plain text -/

theorem dropTrailing_of_no_space (l : List Char)
    (h : ∀ c ∈ l, isPySpace c = false) : dropTrailing l = l := by
  induction l with
  | nil => rfl
  | cons c rest ih =>
    have hrest := ih (fun x hx => h x (by simp [hx]))
    unfold dropTrailing
    rw [hrest]
    cases rest with
    | nil => simp [h c (by simp)]
    | cons d ds => rfl

theorem pyStripL_of_no_space (l : List Char)
    (h : ∀ c ∈ l, isPySpace c = false) : pyStripL l = l := by
  unfold pyStripL
  have hdw : l.dropWhile isPySpace = l := by
    cases l with
    | nil => rfl
    | cons c rest => exact List.dropWhile_cons_of_neg (by simp [h c (by simp)])
  rw [hdw]
  exact dropTrailing_of_no_space l h

/-! ### Round-trips for the numeral printers and parsers -/

theorem pySign_plain (c : Char) (r : List Char) (h1 : c ≠ '+') (h2 : c ≠ '-') :
    pySign (c :: r) = (false, c :: r) := by
  simp [pySign, h1, h2]

theorem pyHexBody_plain (l : List Char)
    (h : ∀ c1 c2 r, l = c1 :: c2 :: r → ¬ (c1 = '0' ∧ (c2 = 'x' ∨ c2 = 'X'))) :
    pyHexBody l = l := by
  rcases l with - | ⟨c1, - | ⟨c2, r⟩⟩
  · rfl
  · rfl
  · simp [pyHexBody, h c1 c2 r rfl]

theorem parsePyHex_hexPadC (w n : Nat) (hw : 1 ≤ w) (hn : n < 16 ^ w) :
    parsePyHex (hexPadC w n) = some (n : Int) := by
  have hchars := hexPadC_chars w n
  have hplain : ∀ c ∈ hexPadC w n, isPySpace c = false := by
    intro c hc
    obtain ⟨d, hd, rfl⟩ := hchars c hc
    exact (hexDigitChar_plain d hd).1
  have hhex : ∀ c ∈ hexPadC w n, isHexDigitC c = true := by
    intro c hc
    obtain ⟨d, hd, rfl⟩ := hchars c hc
    exact isHexDigitC_hexDigitChar d hd
  rcases hL : hexPadC w n with - | ⟨c, rest⟩
  · exact absurd hL (hexPadC_ne_nil w n hw hn)
  · have hplain2 : ∀ x ∈ c :: rest, isPySpace x = false := by
      rw [← hL]; exact hplain
    have hhex2 : ∀ x ∈ c :: rest, isHexDigitC x = true := by
      rw [← hL]; exact hhex
    have hstrip : pyStripL (c :: rest) = c :: rest := pyStripL_of_no_space _ hplain2
    obtain ⟨d, hd, hcd⟩ := hchars c (by rw [hL]; simp)
    have hcp := hexDigitChar_plain d hd
    have hval : valCB 16 (c :: rest) = n := by rw [← hL]; exact valCB_hexPadC w n
    have hsign : pySign (c :: rest) = (false, c :: rest) :=
      pySign_plain c rest (by rw [hcd]; exact hcp.2.1) (by rw [hcd]; exact hcp.2.2.1)
    have hbody : pyHexBody (c :: rest) = c :: rest := by
      apply pyHexBody_plain
      intro c1 c2 r he
      cases he
      obtain ⟨d2, hd2, hc2d⟩ := hchars c2 (by rw [hL]; simp)
      have hcp2 := hexDigitChar_plain d2 hd2
      rintro ⟨-, h2 | h2⟩
      · rw [hc2d] at h2
        exact hcp2.2.2.2.1 h2
      · rw [hc2d] at h2
        exact hcp2.2.2.2.2.1 h2
    unfold parsePyHex
    simp only [hstrip, hsign, hbody]
    rw [if_neg (by simp)]
    rw [if_pos (List.all_eq_true.mpr hhex2)]
    rw [hval]
    rfl

theorem decOfNat_chars (n : Nat) :
    ∀ c ∈ decOfNat n, ∃ d, d < 10 ∧ c = hexDigitChar d := by
  intro c hc
  unfold decOfNat at hc
  obtain ⟨d, hd, rfl⟩ := List.mem_map.mp hc
  exact ⟨d, reprB_digits_lt 10 (by omega) n d hd, rfl⟩

theorem decOfNat_ne_nil (n : Nat) : decOfNat n ≠ [] := by
  unfold decOfNat
  intro h
  exact reprB_ne_nil 10 n (by omega) (by simpa using h)

theorem valCB_decOfNat (n : Nat) : valCB 10 (decOfNat n) = n := by
  unfold decOfNat
  rw [valCB_map_hexDigitChar 10 _ (fun d hd => by
    have := reprB_digits_lt 10 (by omega) n d hd
    omega)]
  exact valB_reprB 10 (by omega) n

theorem parsePyInt_decOfNat (n : Nat) : parsePyInt (decOfNat n) = some (n : Int) := by
  have hchars := decOfNat_chars n
  have hplain : ∀ c ∈ decOfNat n, isPySpace c = false := by
    intro c hc
    obtain ⟨d, hd, rfl⟩ := hchars c hc
    exact (hexDigitChar_plain d (by omega)).1
  have hdig : ∀ c ∈ decOfNat n, isDigitC c = true := by
    intro c hc
    obtain ⟨d, hd, rfl⟩ := hchars c hc
    exact isDigitC_hexDigitChar d hd
  rcases hL : decOfNat n with - | ⟨c, rest⟩
  · exact absurd hL (decOfNat_ne_nil n)
  · have hplain2 : ∀ x ∈ c :: rest, isPySpace x = false := by
      rw [← hL]; exact hplain
    have hdig2 : ∀ x ∈ c :: rest, isDigitC x = true := by
      rw [← hL]; exact hdig
    have hstrip : pyStripL (c :: rest) = c :: rest := pyStripL_of_no_space _ hplain2
    obtain ⟨d, hd, hcd⟩ := hchars c (by rw [hL]; simp)
    have hcp := hexDigitChar_plain d (by omega)
    have hval : valCB 10 (c :: rest) = n := by rw [← hL]; exact valCB_decOfNat n
    have hsign : pySign (c :: rest) = (false, c :: rest) :=
      pySign_plain c rest (by rw [hcd]; exact hcp.2.1) (by rw [hcd]; exact hcp.2.2.1)
    unfold parsePyInt
    simp only [hstrip, hsign]
    rw [if_neg (by simp)]
    rw [if_pos (List.all_eq_true.mpr hdig2)]
    rw [hval]
    rfl

theorem parsePyInt_intRepr (i : Int) : parsePyInt (intRepr i) = some i := by
  by_cases hneg : i < 0
  · have hplain : ∀ c ∈ decOfNat i.natAbs, isPySpace c = false := by
      intro c hc
      obtain ⟨d, hd, rfl⟩ := decOfNat_chars i.natAbs c hc
      exact (hexDigitChar_plain d (by omega)).1
    have hdig : ∀ c ∈ decOfNat i.natAbs, isDigitC c = true := by
      intro c hc
      obtain ⟨d, hd, rfl⟩ := decOfNat_chars i.natAbs c hc
      exact isDigitC_hexDigitChar d hd
    have hstrip : pyStripL ('-' :: decOfNat i.natAbs) = '-' :: decOfNat i.natAbs := by
      apply pyStripL_of_no_space
      intro c hc
      rcases List.mem_cons.mp hc with rfl | hc2
      · decide
      · exact hplain c hc2
    have hsign : pySign ('-' :: decOfNat i.natAbs) = (true, decOfNat i.natAbs) := by
      simp [pySign]
    unfold intRepr parsePyInt
    rw [if_pos hneg]
    simp only [hstrip, hsign]
    rw [if_neg (by simpa using decOfNat_ne_nil i.natAbs)]
    rw [if_pos (List.all_eq_true.mpr hdig)]
    rw [valCB_decOfNat]
    have habs : -((i.natAbs : Int)) = i := by omega
    rw [if_pos trivial, habs]
  · unfold intRepr
    rw [if_neg hneg, parsePyInt_decOfNat]
    congr 1
    omega

/-! ### Datetime packing round-trip -/

theorem daysInMonth_le_31 (y m : Nat) : daysInMonth y m ≤ 31 := by
  unfold daysInMonth
  split
  · split <;> omega
  · split <;> omega

theorem decodeDateTime_encodeDateTime (v : PyDateTime) (hv : isValidDateTime v)
    (hy : v.year < 4096) :
    PageSpecifier.decodeDateTime (PageSpecifier.encodeDateTime v) = .ok v := by
  obtain ⟨hy1, hy2, hm1, hm2, hd1, hd2, hh, hmi, hs, hus⟩ := hv
  have hdmax : v.day ≤ 31 := le_trans hd2 (daysInMonth_le_31 v.year v.month)
  have l1 : (hexPadC 3 v.year).length = 3 := hexPadC_length 3 v.year (by omega) (by norm_num; omega)
  have l2 : (hexPadC 1 v.month).length = 1 := hexPadC_length 1 v.month (by omega) (by norm_num; omega)
  have l3 : (hexPadC 2 v.day).length = 2 := hexPadC_length 2 v.day (by omega) (by norm_num; omega)
  have l4 : (hexPadC 2 v.hour).length = 2 := hexPadC_length 2 v.hour (by omega) (by norm_num; omega)
  have l5 : (hexPadC 2 v.minute).length = 2 := hexPadC_length 2 v.minute (by omega) (by norm_num; omega)
  have l6 : (hexPadC 2 v.second).length = 2 := hexPadC_length 2 v.second (by omega) (by norm_num; omega)
  have l7 : (hexPadC 5 v.microsecond).length = 5 :=
    hexPadC_length 5 v.microsecond (by omega) (by norm_num; omega)
  have hE : PageSpecifier.encodeDateTime v =
      hexPadC 3 v.year ++ (hexPadC 1 v.month ++ (hexPadC 2 v.day ++ (hexPadC 2 v.hour ++
        (hexPadC 2 v.minute ++ (hexPadC 2 v.second ++ hexPadC 5 v.microsecond))))) := by
    unfold PageSpecifier.encodeDateTime
    simp [List.append_assoc]
  have hlen : (PageSpecifier.encodeDateTime v).length = 17 := by
    rw [hE]
    simp only [List.length_append]
    omega
  unfold PageSpecifier.decodeDateTime
  rw [if_neg (by omega)]
  have e0 : (PageSpecifier.encodeDateTime v).take 3 = hexPadC 3 v.year := by
    rw [hE]; exact List.take_left' l1
  have d3 : (PageSpecifier.encodeDateTime v).drop 3 =
      hexPadC 1 v.month ++ (hexPadC 2 v.day ++ (hexPadC 2 v.hour ++
        (hexPadC 2 v.minute ++ (hexPadC 2 v.second ++ hexPadC 5 v.microsecond)))) := by
    rw [hE]; exact List.drop_left' l1
  have e1 : ((PageSpecifier.encodeDateTime v).drop 3).take 1 = hexPadC 1 v.month := by
    rw [d3]; exact List.take_left' l2
  have d4 : (PageSpecifier.encodeDateTime v).drop 4 =
      hexPadC 2 v.day ++ (hexPadC 2 v.hour ++
        (hexPadC 2 v.minute ++ (hexPadC 2 v.second ++ hexPadC 5 v.microsecond))) := by
    rw [← List.drop_drop 1 3, d3]
    exact List.drop_left' l2
  have e2 : ((PageSpecifier.encodeDateTime v).drop 4).take 2 = hexPadC 2 v.day := by
    rw [d4]; exact List.take_left' l3
  have d6 : (PageSpecifier.encodeDateTime v).drop 6 =
      hexPadC 2 v.hour ++ (hexPadC 2 v.minute ++ (hexPadC 2 v.second ++ hexPadC 5 v.microsecond)) := by
    rw [← List.drop_drop 2 4, d4]
    exact List.drop_left' l3
  have e3 : ((PageSpecifier.encodeDateTime v).drop 6).take 2 = hexPadC 2 v.hour := by
    rw [d6]; exact List.take_left' l4
  have d8 : (PageSpecifier.encodeDateTime v).drop 8 =
      hexPadC 2 v.minute ++ (hexPadC 2 v.second ++ hexPadC 5 v.microsecond) := by
    rw [← List.drop_drop 2 6, d6]
    exact List.drop_left' l4
  have e4 : ((PageSpecifier.encodeDateTime v).drop 8).take 2 = hexPadC 2 v.minute := by
    rw [d8]; exact List.take_left' l5
  have d10 : (PageSpecifier.encodeDateTime v).drop 10 =
      hexPadC 2 v.second ++ hexPadC 5 v.microsecond := by
    rw [← List.drop_drop 2 8, d8]
    exact List.drop_left' l5
  have e5 : ((PageSpecifier.encodeDateTime v).drop 10).take 2 = hexPadC 2 v.second := by
    rw [d10]; exact List.take_left' l6
  have e6 : (PageSpecifier.encodeDateTime v).drop 12 = hexPadC 5 v.microsecond := by
    rw [← List.drop_drop 2 10, d10]
    exact List.drop_left' l6
  rw [e0, e1, e2, e3, e4, e5, e6]
  have p1 : hexField (hexPadC 3 v.year) = .ok (v.year : Int) := by
    unfold hexField
    rw [parsePyHex_hexPadC 3 v.year (by omega) (by norm_num; omega)]
  have p2 : hexField (hexPadC 1 v.month) = .ok (v.month : Int) := by
    unfold hexField
    rw [parsePyHex_hexPadC 1 v.month (by omega) (by norm_num; omega)]
  have p3 : hexField (hexPadC 2 v.day) = .ok (v.day : Int) := by
    unfold hexField
    rw [parsePyHex_hexPadC 2 v.day (by omega) (by norm_num; omega)]
  have p4 : hexField (hexPadC 2 v.hour) = .ok (v.hour : Int) := by
    unfold hexField
    rw [parsePyHex_hexPadC 2 v.hour (by omega) (by norm_num; omega)]
  have p5 : hexField (hexPadC 2 v.minute) = .ok (v.minute : Int) := by
    unfold hexField
    rw [parsePyHex_hexPadC 2 v.minute (by omega) (by norm_num; omega)]
  have p6 : hexField (hexPadC 2 v.second) = .ok (v.second : Int) := by
    unfold hexField
    rw [parsePyHex_hexPadC 2 v.second (by omega) (by norm_num; omega)]
  have p7 : hexField (hexPadC 5 v.microsecond) = .ok (v.microsecond : Int) := by
    unfold hexField
    rw [parsePyHex_hexPadC 5 v.microsecond (by omega) (by norm_num; omega)]
  rw [p1, p2, p3, p4, p5, p6, p7]
  show (match mkDateTime (v.year : Int) (v.month : Int) (v.day : Int) (v.hour : Int)
        (v.minute : Int) (v.second : Int) (v.microsecond : Int) with
      | some v2 => Except.ok v2
      | none => Except.error PyErr.valueError) = Except.ok v
  have hmk : mkDateTime v.year v.month v.day v.hour v.minute v.second v.microsecond =
      some v := by
    unfold mkDateTime
    rw [if_pos (by
      refine ⟨by omega, by omega, by omega, by omega, by omega, ?_, by omega, by omega,
        by omega, by omega, by omega, by omega, by omega, by omega⟩
      simp only [Int.toNat_ofNat]
      exact_mod_cast hd2)]
    simp
  rw [hmk]

/-! ### Splitting a joined parameter list -/

theorem splitOnChar_no_sep (sep : Char) (l : List Char) (h : sep ∉ l) :
    splitOnChar sep l = [l] := by
  induction l with
  | nil => rfl
  | cons c rest ih =>
    have hc : c ≠ sep := by
      intro he
      exact h (by simp [he])
    rw [splitOnChar, if_neg hc]
    rw [ih (fun hm => h (by simp [hm]))]
    rfl

theorem splitOnChar_append_sep (sep : Char) (p t : List Char) (h : sep ∉ p) :
    splitOnChar sep (p ++ sep :: t) = p :: splitOnChar sep t := by
  induction p with
  | nil => simp [splitOnChar]
  | cons c p1 ih =>
    have hc : c ≠ sep := by
      intro he
      exact h (by simp [he])
    simp only [List.cons_append]
    rw [splitOnChar, if_neg hc]
    rw [ih (fun hm => h (by simp [hm]))]
    rfl

theorem splitOnChar_joinWith (sep : Char) (ps : List (List Char)) (hne : ps ≠ [])
    (h : ∀ p ∈ ps, sep ∉ p) :
    splitOnChar sep (joinWith sep ps) = ps := by
  induction ps with
  | nil => exact absurd rfl hne
  | cons p rest ih =>
    cases rest with
    | nil => exact splitOnChar_no_sep sep p (h p (by simp))
    | cons q qs =>
      show splitOnChar sep (p ++ sep :: joinWith sep (q :: qs)) = _
      rw [splitOnChar_append_sep sep p _ (h p (by simp))]
      rw [ih (by simp) (fun x hx => h x (by simp [hx]))]

/-! ### Parameter dispatch -/

theorem applyParam_m (kw : PageKwargs) (rest : List Char) :
    applyParam kw ('m' :: '=' :: rest) = .ok { kw with mode := some rest } := by
  simp [applyParam]

theorem applyParam_d (kw : PageKwargs) (rest : List Char) (v : PyDateTime)
    (h : PageSpecifier.decodeDateTime rest = .ok v) :
    applyParam kw ('d' :: '=' :: rest) = .ok { kw with start_value := some v } := by
  have h1 : ¬ (('d' : Char) = 'm' ∧ ('=' : Char) = '=') := by decide
  simp [applyParam, h1, h]

theorem applyParam_d_error (kw : PageKwargs) (rest : List Char) (e : PyErr)
    (h : PageSpecifier.decodeDateTime rest = .error e) :
    applyParam kw ('d' :: '=' :: rest) = .error e := by
  have h1 : ¬ (('d' : Char) = 'm' ∧ ('=' : Char) = '=') := by decide
  simp [applyParam, h1, h]

theorem applyParam_o (kw : PageKwargs) (rest : List Char) (n : Int)
    (h : parsePyInt rest = some n) :
    applyParam kw ('o' :: '=' :: rest) = .ok { kw with offset := some n } := by
  have h1 : ¬ (('o' : Char) = 'm' ∧ ('=' : Char) = '=') := by decide
  have h2 : ¬ (('o' : Char) = 'd' ∧ ('=' : Char) = '=') := by decide
  simp [applyParam, h1, h2, h]

theorem applyParam_o_error (kw : PageKwargs) (rest : List Char)
    (h : parsePyInt rest = none) :
    applyParam kw ('o' :: '=' :: rest) = .error .valueError := by
  have h1 : ¬ (('o' : Char) = 'm' ∧ ('=' : Char) = '=') := by decide
  have h2 : ¬ (('o' : Char) = 'd' ∧ ('=' : Char) = '=') := by decide
  simp [applyParam, h1, h2, h]

theorem applyParam_s (kw : PageKwargs) (rest : List Char) (n : Int)
    (h : parsePyInt rest = some n) :
    applyParam kw ('s' :: '=' :: rest) = .ok { kw with size := some n } := by
  have h1 : ¬ (('s' : Char) = 'm' ∧ ('=' : Char) = '=') := by decide
  have h2 : ¬ (('s' : Char) = 'd' ∧ ('=' : Char) = '=') := by decide
  have h3 : ¬ (('s' : Char) = 'o' ∧ ('=' : Char) = '=') := by decide
  simp [applyParam, h1, h2, h3, h]

theorem applyParam_s_error (kw : PageKwargs) (rest : List Char)
    (h : parsePyInt rest = none) :
    applyParam kw ('s' :: '=' :: rest) = .error .valueError := by
  have h1 : ¬ (('s' : Char) = 'm' ∧ ('=' : Char) = '=') := by decide
  have h2 : ¬ (('s' : Char) = 'd' ∧ ('=' : Char) = '=') := by decide
  have h3 : ¬ (('s' : Char) = 'o' ∧ ('=' : Char) = '=') := by decide
  simp [applyParam, h1, h2, h3, h]

theorem applyParam_r (kw : PageKwargs) (rest : List Char) (n : Int)
    (h : parsePyInt rest = some n) :
    applyParam kw ('r' :: '=' :: rest) = .ok { kw with reversed := some (decide (n ≠ 0)) } := by
  have h1 : ¬ (('r' : Char) = 'm' ∧ ('=' : Char) = '=') := by decide
  have h2 : ¬ (('r' : Char) = 'd' ∧ ('=' : Char) = '=') := by decide
  have h3 : ¬ (('r' : Char) = 'o' ∧ ('=' : Char) = '=') := by decide
  have h4 : ¬ (('r' : Char) = 's' ∧ ('=' : Char) = '=') := by decide
  simp [applyParam, h1, h2, h3, h4, h]

theorem no_semi_param (c1 c2 : Char) (l : List Char) (h1 : c1 ≠ ';') (h2 : c2 ≠ ';')
    (h3 : (';' : Char) ∉ l) : (';' : Char) ∉ c1 :: c2 :: l := by
  simp only [List.mem_cons]
  rintro (h | h | h)
  · exact h1 h.symm
  · exact h2 h.symm
  · exact h3 h

theorem encodeDateTime_no_semi (v : PyDateTime) :
    (';' : Char) ∉ PageSpecifier.encodeDateTime v := by
  intro h
  unfold PageSpecifier.encodeDateTime at h
  have hsemi : ∀ w n, (';' : Char) ∉ hexPadC w n := by
    intro w n hmem
    obtain ⟨d, hd, heq⟩ := hexPadC_chars w n ';' hmem
    exact (hexDigitChar_plain d hd).2.2.2.2.2 heq.symm
  rcases List.mem_append.mp h with h | h
  rcases List.mem_append.mp h with h | h
  rcases List.mem_append.mp h with h | h
  rcases List.mem_append.mp h with h | h
  rcases List.mem_append.mp h with h | h
  rcases List.mem_append.mp h with h | h
  all_goals exact hsemi _ _ h

theorem intRepr_no_semi (i : Int) : (';' : Char) ∉ intRepr i := by
  intro h
  have hdec : ∀ n : Nat, (';' : Char) ∉ decOfNat n := by
    intro n hmem
    obtain ⟨d, hd, heq⟩ := decOfNat_chars n ';' hmem
    exact (hexDigitChar_plain d (by omega)).2.2.2.2.2 heq.symm
  unfold intRepr at h
  by_cases hneg : i < 0
  · rw [if_pos hneg] at h
    rcases List.mem_cons.mp h with h | h
    · exact absurd h (by decide)
    · exact hdec _ h
  · rw [if_neg hneg] at h
    exact hdec _ h

theorem applyParam_r1 (kw : PageKwargs) :
    applyParam kw ['r', '=', '1'] = .ok { kw with reversed := some true } := rfl

/-! ### Claim C2: PageSpecifier round-trip -/

/-- C2: for every valid `PageSpecifier` — `size` within the page-size
maximum, `start_value` absent or a datetime representable in the
17-character packing (year below 4096), and a `mode` free of the `;`
separator — `decode (encode p)` reproduces `mode`, `start_value` (to the
microsecond), `offset`, `size` and `reversed` exactly. -/
theorem pagespecifier_roundtrip (p : PageSpecifier) (hmode : (';' : Char) ∉ p.mode)
    (hsize : p.size ≤ PageSpecifier.maxPageSize)
    (hstart : ∀ v, p.start_value = some v → isValidDateTime v ∧ v.year < 4096) :
    PageSpecifier.decode (PageSpecifier.encode p) = .ok p := by
  obtain ⟨mode, sv, off, sz, rv⟩ := p
  simp only at hmode hsize hstart
  have hsize20 : sz ≤ (20 : Int) := hsize
  have hm : (';' : Char) ∉ 'm' :: '=' :: mode :=
    no_semi_param 'm' '=' mode (by decide) (by decide) hmode
  have hpo : (';' : Char) ∉ 'o' :: '=' :: intRepr off :=
    no_semi_param 'o' '=' _ (by decide) (by decide) (intRepr_no_semi off)
  have hpsv : (';' : Char) ∉ 's' :: '=' :: intRepr sz :=
    no_semi_param 's' '=' _ (by decide) (by decide) (intRepr_no_semi sz)
  have hpr : (';' : Char) ∉ ['r', '=', '1'] := by decide
  rcases sv with - | v
  · by_cases ho : off = 0
    · by_cases hsz : sz = PageSpecifier.defaultSize
      · cases rv with
        | false =>
          have hsz3 : sz = 3 := by simpa [PageSpecifier.defaultSize] using hsz
          have hsplit : splitOnChar ';' (joinWith ';' [('m' :: '=' :: mode)]) =
              [('m' :: '=' :: mode)] := by
            apply splitOnChar_joinWith
            · simp
            · intro x hx
              simp only [List.mem_cons, List.not_mem_nil, or_false] at hx
              rw [hx]
              exact hm
          have henc : PageSpecifier.encode ⟨mode, none, off, sz, false⟩ =
              joinWith ';' [('m' :: '=' :: mode)] := by
            simp [PageSpecifier.encode, PageSpecifier.defaultSize, ho, hsz3]
          rw [henc]
          unfold PageSpecifier.decode
          rw [hsplit]
          simp only [applyParams, applyParam_m]
          simp [PageSpecifier.make, PageSpecifier.maxPageSize, PageSpecifier.defaultSize, ho, hsz3, (by decide : min (20 : Int) 3 = 3)]
        | true =>
          have hsz3 : sz = 3 := by simpa [PageSpecifier.defaultSize] using hsz
          have hsplit : splitOnChar ';' (joinWith ';' [('m' :: '=' :: mode), ['r', '=', '1']]) =
              [('m' :: '=' :: mode), ['r', '=', '1']] := by
            apply splitOnChar_joinWith
            · simp
            · intro x hx
              simp only [List.mem_cons, List.not_mem_nil, or_false] at hx
              rcases hx with rfl | rfl
              exacts [hm, hpr]
          have henc : PageSpecifier.encode ⟨mode, none, off, sz, true⟩ =
              joinWith ';' [('m' :: '=' :: mode), ['r', '=', '1']] := by
            simp [PageSpecifier.encode, PageSpecifier.defaultSize, ho, hsz3]
          rw [henc]
          unfold PageSpecifier.decode
          rw [hsplit]
          simp only [applyParams, applyParam_m, applyParam_r1]
          simp [PageSpecifier.make, PageSpecifier.maxPageSize, PageSpecifier.defaultSize, ho, hsz3, (by decide : min (20 : Int) 3 = 3)]
      · cases rv with
        | false =>
          have hsz3 : ¬ sz = 3 := by simpa [PageSpecifier.defaultSize] using hsz
          have hsplit : splitOnChar ';' (joinWith ';' [('m' :: '=' :: mode), ('s' :: '=' :: intRepr sz)]) =
              [('m' :: '=' :: mode), ('s' :: '=' :: intRepr sz)] := by
            apply splitOnChar_joinWith
            · simp
            · intro x hx
              simp only [List.mem_cons, List.not_mem_nil, or_false] at hx
              rcases hx with rfl | rfl
              exacts [hm, hpsv]
          have henc : PageSpecifier.encode ⟨mode, none, off, sz, false⟩ =
              joinWith ';' [('m' :: '=' :: mode), ('s' :: '=' :: intRepr sz)] := by
            simp [PageSpecifier.encode, PageSpecifier.defaultSize, ho, hsz3]
          rw [henc]
          unfold PageSpecifier.decode
          rw [hsplit]
          simp only [applyParams, applyParam_m, applyParam_s _ _ _ (parsePyInt_intRepr sz)]
          simp [PageSpecifier.make, PageSpecifier.maxPageSize, PageSpecifier.defaultSize, ho, hsz3, min_eq_right hsize20]
        | true =>
          have hsz3 : ¬ sz = 3 := by simpa [PageSpecifier.defaultSize] using hsz
          have hsplit : splitOnChar ';' (joinWith ';' [('m' :: '=' :: mode), ('s' :: '=' :: intRepr sz), ['r', '=', '1']]) =
              [('m' :: '=' :: mode), ('s' :: '=' :: intRepr sz), ['r', '=', '1']] := by
            apply splitOnChar_joinWith
            · simp
            · intro x hx
              simp only [List.mem_cons, List.not_mem_nil, or_false] at hx
              rcases hx with rfl | rfl | rfl
              exacts [hm, hpsv, hpr]
          have henc : PageSpecifier.encode ⟨mode, none, off, sz, true⟩ =
              joinWith ';' [('m' :: '=' :: mode), ('s' :: '=' :: intRepr sz), ['r', '=', '1']] := by
            simp [PageSpecifier.encode, PageSpecifier.defaultSize, ho, hsz3]
          rw [henc]
          unfold PageSpecifier.decode
          rw [hsplit]
          simp only [applyParams, applyParam_m, applyParam_s _ _ _ (parsePyInt_intRepr sz), applyParam_r1]
          simp [PageSpecifier.make, PageSpecifier.maxPageSize, PageSpecifier.defaultSize, ho, hsz3, min_eq_right hsize20]
    · by_cases hsz : sz = PageSpecifier.defaultSize
      · cases rv with
        | false =>
          have hsz3 : sz = 3 := by simpa [PageSpecifier.defaultSize] using hsz
          have hsplit : splitOnChar ';' (joinWith ';' [('m' :: '=' :: mode), ('o' :: '=' :: intRepr off)]) =
              [('m' :: '=' :: mode), ('o' :: '=' :: intRepr off)] := by
            apply splitOnChar_joinWith
            · simp
            · intro x hx
              simp only [List.mem_cons, List.not_mem_nil, or_false] at hx
              rcases hx with rfl | rfl
              exacts [hm, hpo]
          have henc : PageSpecifier.encode ⟨mode, none, off, sz, false⟩ =
              joinWith ';' [('m' :: '=' :: mode), ('o' :: '=' :: intRepr off)] := by
            simp [PageSpecifier.encode, PageSpecifier.defaultSize, ho, hsz3]
          rw [henc]
          unfold PageSpecifier.decode
          rw [hsplit]
          simp only [applyParams, applyParam_m, applyParam_o _ _ _ (parsePyInt_intRepr off)]
          simp [PageSpecifier.make, PageSpecifier.maxPageSize, PageSpecifier.defaultSize, ho, hsz3, (by decide : min (20 : Int) 3 = 3)]
        | true =>
          have hsz3 : sz = 3 := by simpa [PageSpecifier.defaultSize] using hsz
          have hsplit : splitOnChar ';' (joinWith ';' [('m' :: '=' :: mode), ('o' :: '=' :: intRepr off), ['r', '=', '1']]) =
              [('m' :: '=' :: mode), ('o' :: '=' :: intRepr off), ['r', '=', '1']] := by
            apply splitOnChar_joinWith
            · simp
            · intro x hx
              simp only [List.mem_cons, List.not_mem_nil, or_false] at hx
              rcases hx with rfl | rfl | rfl
              exacts [hm, hpo, hpr]
          have henc : PageSpecifier.encode ⟨mode, none, off, sz, true⟩ =
              joinWith ';' [('m' :: '=' :: mode), ('o' :: '=' :: intRepr off), ['r', '=', '1']] := by
            simp [PageSpecifier.encode, PageSpecifier.defaultSize, ho, hsz3]
          rw [henc]
          unfold PageSpecifier.decode
          rw [hsplit]
          simp only [applyParams, applyParam_m, applyParam_o _ _ _ (parsePyInt_intRepr off), applyParam_r1]
          simp [PageSpecifier.make, PageSpecifier.maxPageSize, PageSpecifier.defaultSize, ho, hsz3, (by decide : min (20 : Int) 3 = 3)]
      · cases rv with
        | false =>
          have hsz3 : ¬ sz = 3 := by simpa [PageSpecifier.defaultSize] using hsz
          have hsplit : splitOnChar ';' (joinWith ';' [('m' :: '=' :: mode), ('o' :: '=' :: intRepr off), ('s' :: '=' :: intRepr sz)]) =
              [('m' :: '=' :: mode), ('o' :: '=' :: intRepr off), ('s' :: '=' :: intRepr sz)] := by
            apply splitOnChar_joinWith
            · simp
            · intro x hx
              simp only [List.mem_cons, List.not_mem_nil, or_false] at hx
              rcases hx with rfl | rfl | rfl
              exacts [hm, hpo, hpsv]
          have henc : PageSpecifier.encode ⟨mode, none, off, sz, false⟩ =
              joinWith ';' [('m' :: '=' :: mode), ('o' :: '=' :: intRepr off), ('s' :: '=' :: intRepr sz)] := by
            simp [PageSpecifier.encode, PageSpecifier.defaultSize, ho, hsz3]
          rw [henc]
          unfold PageSpecifier.decode
          rw [hsplit]
          simp only [applyParams, applyParam_m, applyParam_o _ _ _ (parsePyInt_intRepr off), applyParam_s _ _ _ (parsePyInt_intRepr sz)]
          simp [PageSpecifier.make, PageSpecifier.maxPageSize, PageSpecifier.defaultSize, ho, hsz3, min_eq_right hsize20]
        | true =>
          have hsz3 : ¬ sz = 3 := by simpa [PageSpecifier.defaultSize] using hsz
          have hsplit : splitOnChar ';' (joinWith ';' [('m' :: '=' :: mode), ('o' :: '=' :: intRepr off), ('s' :: '=' :: intRepr sz), ['r', '=', '1']]) =
              [('m' :: '=' :: mode), ('o' :: '=' :: intRepr off), ('s' :: '=' :: intRepr sz), ['r', '=', '1']] := by
            apply splitOnChar_joinWith
            · simp
            · intro x hx
              simp only [List.mem_cons, List.not_mem_nil, or_false] at hx
              rcases hx with rfl | rfl | rfl | rfl
              exacts [hm, hpo, hpsv, hpr]
          have henc : PageSpecifier.encode ⟨mode, none, off, sz, true⟩ =
              joinWith ';' [('m' :: '=' :: mode), ('o' :: '=' :: intRepr off), ('s' :: '=' :: intRepr sz), ['r', '=', '1']] := by
            simp [PageSpecifier.encode, PageSpecifier.defaultSize, ho, hsz3]
          rw [henc]
          unfold PageSpecifier.decode
          rw [hsplit]
          simp only [applyParams, applyParam_m, applyParam_o _ _ _ (parsePyInt_intRepr off), applyParam_s _ _ _ (parsePyInt_intRepr sz), applyParam_r1]
          simp [PageSpecifier.make, PageSpecifier.maxPageSize, PageSpecifier.defaultSize, ho, hsz3, min_eq_right hsize20]
  · obtain ⟨hvv, hvy⟩ := hstart v rfl
    have hdec := decodeDateTime_encodeDateTime v hvv hvy
    have hpd : (';' : Char) ∉ 'd' :: '=' :: PageSpecifier.encodeDateTime v :=
      no_semi_param 'd' '=' _ (by decide) (by decide) (encodeDateTime_no_semi v)
    by_cases ho : off = 0
    · by_cases hsz : sz = PageSpecifier.defaultSize
      · cases rv with
        | false =>
          have hsz3 : sz = 3 := by simpa [PageSpecifier.defaultSize] using hsz
          have hsplit : splitOnChar ';' (joinWith ';' [('m' :: '=' :: mode), ('d' :: '=' :: PageSpecifier.encodeDateTime v)]) =
              [('m' :: '=' :: mode), ('d' :: '=' :: PageSpecifier.encodeDateTime v)] := by
            apply splitOnChar_joinWith
            · simp
            · intro x hx
              simp only [List.mem_cons, List.not_mem_nil, or_false] at hx
              rcases hx with rfl | rfl
              exacts [hm, hpd]
          have henc : PageSpecifier.encode ⟨mode, some v, off, sz, false⟩ =
              joinWith ';' [('m' :: '=' :: mode), ('d' :: '=' :: PageSpecifier.encodeDateTime v)] := by
            simp [PageSpecifier.encode, PageSpecifier.defaultSize, ho, hsz3]
          rw [henc]
          unfold PageSpecifier.decode
          rw [hsplit]
          simp only [applyParams, applyParam_m, applyParam_d _ _ _ hdec]
          simp [PageSpecifier.make, PageSpecifier.maxPageSize, PageSpecifier.defaultSize, ho, hsz3, (by decide : min (20 : Int) 3 = 3)]
        | true =>
          have hsz3 : sz = 3 := by simpa [PageSpecifier.defaultSize] using hsz
          have hsplit : splitOnChar ';' (joinWith ';' [('m' :: '=' :: mode), ('d' :: '=' :: PageSpecifier.encodeDateTime v), ['r', '=', '1']]) =
              [('m' :: '=' :: mode), ('d' :: '=' :: PageSpecifier.encodeDateTime v), ['r', '=', '1']] := by
            apply splitOnChar_joinWith
            · simp
            · intro x hx
              simp only [List.mem_cons, List.not_mem_nil, or_false] at hx
              rcases hx with rfl | rfl | rfl
              exacts [hm, hpd, hpr]
          have henc : PageSpecifier.encode ⟨mode, some v, off, sz, true⟩ =
              joinWith ';' [('m' :: '=' :: mode), ('d' :: '=' :: PageSpecifier.encodeDateTime v), ['r', '=', '1']] := by
            simp [PageSpecifier.encode, PageSpecifier.defaultSize, ho, hsz3]
          rw [henc]
          unfold PageSpecifier.decode
          rw [hsplit]
          simp only [applyParams, applyParam_m, applyParam_d _ _ _ hdec, applyParam_r1]
          simp [PageSpecifier.make, PageSpecifier.maxPageSize, PageSpecifier.defaultSize, ho, hsz3, (by decide : min (20 : Int) 3 = 3)]
      · cases rv with
        | false =>
          have hsz3 : ¬ sz = 3 := by simpa [PageSpecifier.defaultSize] using hsz
          have hsplit : splitOnChar ';' (joinWith ';' [('m' :: '=' :: mode), ('d' :: '=' :: PageSpecifier.encodeDateTime v), ('s' :: '=' :: intRepr sz)]) =
              [('m' :: '=' :: mode), ('d' :: '=' :: PageSpecifier.encodeDateTime v), ('s' :: '=' :: intRepr sz)] := by
            apply splitOnChar_joinWith
            · simp
            · intro x hx
              simp only [List.mem_cons, List.not_mem_nil, or_false] at hx
              rcases hx with rfl | rfl | rfl
              exacts [hm, hpd, hpsv]
          have henc : PageSpecifier.encode ⟨mode, some v, off, sz, false⟩ =
              joinWith ';' [('m' :: '=' :: mode), ('d' :: '=' :: PageSpecifier.encodeDateTime v), ('s' :: '=' :: intRepr sz)] := by
            simp [PageSpecifier.encode, PageSpecifier.defaultSize, ho, hsz3]
          rw [henc]
          unfold PageSpecifier.decode
          rw [hsplit]
          simp only [applyParams, applyParam_m, applyParam_d _ _ _ hdec, applyParam_s _ _ _ (parsePyInt_intRepr sz)]
          simp [PageSpecifier.make, PageSpecifier.maxPageSize, PageSpecifier.defaultSize, ho, hsz3, min_eq_right hsize20]
        | true =>
          have hsz3 : ¬ sz = 3 := by simpa [PageSpecifier.defaultSize] using hsz
          have hsplit : splitOnChar ';' (joinWith ';' [('m' :: '=' :: mode), ('d' :: '=' :: PageSpecifier.encodeDateTime v), ('s' :: '=' :: intRepr sz), ['r', '=', '1']]) =
              [('m' :: '=' :: mode), ('d' :: '=' :: PageSpecifier.encodeDateTime v), ('s' :: '=' :: intRepr sz), ['r', '=', '1']] := by
            apply splitOnChar_joinWith
            · simp
            · intro x hx
              simp only [List.mem_cons, List.not_mem_nil, or_false] at hx
              rcases hx with rfl | rfl | rfl | rfl
              exacts [hm, hpd, hpsv, hpr]
          have henc : PageSpecifier.encode ⟨mode, some v, off, sz, true⟩ =
              joinWith ';' [('m' :: '=' :: mode), ('d' :: '=' :: PageSpecifier.encodeDateTime v), ('s' :: '=' :: intRepr sz), ['r', '=', '1']] := by
            simp [PageSpecifier.encode, PageSpecifier.defaultSize, ho, hsz3]
          rw [henc]
          unfold PageSpecifier.decode
          rw [hsplit]
          simp only [applyParams, applyParam_m, applyParam_d _ _ _ hdec, applyParam_s _ _ _ (parsePyInt_intRepr sz), applyParam_r1]
          simp [PageSpecifier.make, PageSpecifier.maxPageSize, PageSpecifier.defaultSize, ho, hsz3, min_eq_right hsize20]
    · by_cases hsz : sz = PageSpecifier.defaultSize
      · cases rv with
        | false =>
          have hsz3 : sz = 3 := by simpa [PageSpecifier.defaultSize] using hsz
          have hsplit : splitOnChar ';' (joinWith ';' [('m' :: '=' :: mode), ('d' :: '=' :: PageSpecifier.encodeDateTime v), ('o' :: '=' :: intRepr off)]) =
              [('m' :: '=' :: mode), ('d' :: '=' :: PageSpecifier.encodeDateTime v), ('o' :: '=' :: intRepr off)] := by
            apply splitOnChar_joinWith
            · simp
            · intro x hx
              simp only [List.mem_cons, List.not_mem_nil, or_false] at hx
              rcases hx with rfl | rfl | rfl
              exacts [hm, hpd, hpo]
          have henc : PageSpecifier.encode ⟨mode, some v, off, sz, false⟩ =
              joinWith ';' [('m' :: '=' :: mode), ('d' :: '=' :: PageSpecifier.encodeDateTime v), ('o' :: '=' :: intRepr off)] := by
            simp [PageSpecifier.encode, PageSpecifier.defaultSize, ho, hsz3]
          rw [henc]
          unfold PageSpecifier.decode
          rw [hsplit]
          simp only [applyParams, applyParam_m, applyParam_d _ _ _ hdec, applyParam_o _ _ _ (parsePyInt_intRepr off)]
          simp [PageSpecifier.make, PageSpecifier.maxPageSize, PageSpecifier.defaultSize, ho, hsz3, (by decide : min (20 : Int) 3 = 3)]
        | true =>
          have hsz3 : sz = 3 := by simpa [PageSpecifier.defaultSize] using hsz
          have hsplit : splitOnChar ';' (joinWith ';' [('m' :: '=' :: mode), ('d' :: '=' :: PageSpecifier.encodeDateTime v), ('o' :: '=' :: intRepr off), ['r', '=', '1']]) =
              [('m' :: '=' :: mode), ('d' :: '=' :: PageSpecifier.encodeDateTime v), ('o' :: '=' :: intRepr off), ['r', '=', '1']] := by
            apply splitOnChar_joinWith
            · simp
            · intro x hx
              simp only [List.mem_cons, List.not_mem_nil, or_false] at hx
              rcases hx with rfl | rfl | rfl | rfl
              exacts [hm, hpd, hpo, hpr]
          have henc : PageSpecifier.encode ⟨mode, some v, off, sz, true⟩ =
              joinWith ';' [('m' :: '=' :: mode), ('d' :: '=' :: PageSpecifier.encodeDateTime v), ('o' :: '=' :: intRepr off), ['r', '=', '1']] := by
            simp [PageSpecifier.encode, PageSpecifier.defaultSize, ho, hsz3]
          rw [henc]
          unfold PageSpecifier.decode
          rw [hsplit]
          simp only [applyParams, applyParam_m, applyParam_d _ _ _ hdec, applyParam_o _ _ _ (parsePyInt_intRepr off), applyParam_r1]
          simp [PageSpecifier.make, PageSpecifier.maxPageSize, PageSpecifier.defaultSize, ho, hsz3, (by decide : min (20 : Int) 3 = 3)]
      · cases rv with
        | false =>
          have hsz3 : ¬ sz = 3 := by simpa [PageSpecifier.defaultSize] using hsz
          have hsplit : splitOnChar ';' (joinWith ';' [('m' :: '=' :: mode), ('d' :: '=' :: PageSpecifier.encodeDateTime v), ('o' :: '=' :: intRepr off), ('s' :: '=' :: intRepr sz)]) =
              [('m' :: '=' :: mode), ('d' :: '=' :: PageSpecifier.encodeDateTime v), ('o' :: '=' :: intRepr off), ('s' :: '=' :: intRepr sz)] := by
            apply splitOnChar_joinWith
            · simp
            · intro x hx
              simp only [List.mem_cons, List.not_mem_nil, or_false] at hx
              rcases hx with rfl | rfl | rfl | rfl
              exacts [hm, hpd, hpo, hpsv]
          have henc : PageSpecifier.encode ⟨mode, some v, off, sz, false⟩ =
              joinWith ';' [('m' :: '=' :: mode), ('d' :: '=' :: PageSpecifier.encodeDateTime v), ('o' :: '=' :: intRepr off), ('s' :: '=' :: intRepr sz)] := by
            simp [PageSpecifier.encode, PageSpecifier.defaultSize, ho, hsz3]
          rw [henc]
          unfold PageSpecifier.decode
          rw [hsplit]
          simp only [applyParams, applyParam_m, applyParam_d _ _ _ hdec, applyParam_o _ _ _ (parsePyInt_intRepr off), applyParam_s _ _ _ (parsePyInt_intRepr sz)]
          simp [PageSpecifier.make, PageSpecifier.maxPageSize, PageSpecifier.defaultSize, ho, hsz3, min_eq_right hsize20]
        | true =>
          have hsz3 : ¬ sz = 3 := by simpa [PageSpecifier.defaultSize] using hsz
          have hsplit : splitOnChar ';' (joinWith ';' [('m' :: '=' :: mode), ('d' :: '=' :: PageSpecifier.encodeDateTime v), ('o' :: '=' :: intRepr off), ('s' :: '=' :: intRepr sz), ['r', '=', '1']]) =
              [('m' :: '=' :: mode), ('d' :: '=' :: PageSpecifier.encodeDateTime v), ('o' :: '=' :: intRepr off), ('s' :: '=' :: intRepr sz), ['r', '=', '1']] := by
            apply splitOnChar_joinWith
            · simp
            · intro x hx
              simp only [List.mem_cons, List.not_mem_nil, or_false] at hx
              rcases hx with rfl | rfl | rfl | rfl | rfl
              exacts [hm, hpd, hpo, hpsv, hpr]
          have henc : PageSpecifier.encode ⟨mode, some v, off, sz, true⟩ =
              joinWith ';' [('m' :: '=' :: mode), ('d' :: '=' :: PageSpecifier.encodeDateTime v), ('o' :: '=' :: intRepr off), ('s' :: '=' :: intRepr sz), ['r', '=', '1']] := by
            simp [PageSpecifier.encode, PageSpecifier.defaultSize, ho, hsz3]
          rw [henc]
          unfold PageSpecifier.decode
          rw [hsplit]
          simp only [applyParams, applyParam_m, applyParam_d _ _ _ hdec, applyParam_o _ _ _ (parsePyInt_intRepr off), applyParam_s _ _ _ (parsePyInt_intRepr sz), applyParam_r1]
          simp [PageSpecifier.make, PageSpecifier.maxPageSize, PageSpecifier.defaultSize, ho, hsz3, min_eq_right hsize20]

/-- Witness for C2: the round-trip at a concrete recent-mode cursor with
a start datetime, offset 3, size 5 and the reversed flag. -/
theorem pagespecifier_roundtrip_witness :
    ((';' : Char) ∉ pageRecent.mode ∧ pageRecent.size ≤ PageSpecifier.maxPageSize) ∧
    PageSpecifier.decode (PageSpecifier.encode pageRecent) = .ok pageRecent :=
  ⟨⟨by decide, by decide⟩,
   pagespecifier_roundtrip pageRecent (by decide) (by decide)
     (fun v hv => by
       have h2 : dt2008 = v := Option.some.inj hv
       rw [← h2]
       exact ⟨by decide, by decide⟩)⟩

/-! ### Claim C3: decode rejects malformed cursors -/

theorem applyParams_mem_error (p : List Char)
    (herr : ∀ kw, ∃ e, applyParam kw p = .error e) :
    ∀ ps : List (List Char), p ∈ ps → ∀ kw, ∃ e, applyParams kw ps = .error e := by
  intro ps
  induction ps with
  | nil => intro hp; cases hp
  | cons q qs ih =>
    intro hp kw
    rcases List.mem_cons.mp hp with rfl | hmem
    · obtain ⟨e, he⟩ := herr kw
      exact ⟨e, by unfold applyParams; rw [he]⟩
    · cases hq : applyParam kw q with
      | error e => exact ⟨e, by unfold applyParams; rw [hq]⟩
      | ok kw1 =>
        obtain ⟨e, he⟩ := ih hmem kw1
        exact ⟨e, by unfold applyParams; rw [hq]; exact he⟩

theorem applyParam_unrecognized (kw : PageKwargs) (p : List Char)
    (h : recognizedParam p = false) : applyParam kw p = .ok kw := by
  rcases p with - | ⟨c1, - | ⟨c2, r⟩⟩
  · rfl
  · rfl
  · simp only [recognizedParam, Bool.decide_and, Bool.decide_or,
      Bool.and_eq_false_iff] at h
    unfold applyParam
    by_cases hc2 : c2 = '='
    · have hA : ¬ (c1 = 'm' ∨ c1 = 'd' ∨ c1 = 'o' ∨ c1 = 's' ∨ c1 = 'r') := by
        intro hA
        rcases h with h | h
        · simp only [Bool.or_eq_false_iff, decide_eq_false_iff_not] at h
          rcases hA with h1 | h1 | h1 | h1 | h1
          · exact h.1 h1
          · exact h.2.1 h1
          · exact h.2.2.1 h1
          · exact h.2.2.2.1 h1
          · exact h.2.2.2.2 h1
        · simp only [decide_eq_false_iff_not] at h
          exact h hc2
      push_neg at hA
      simp [hA.1, hA.2.1, hA.2.2.1, hA.2.2.2.1, hA.2.2.2.2]
    · simp [hc2]

theorem applyParams_all_unrecognized (ps : List (List Char)) :
    ∀ kw : PageKwargs, (∀ p ∈ ps, recognizedParam p = false) →
      applyParams kw ps = .ok kw := by
  induction ps with
  | nil => intro kw _; rfl
  | cons q qs ih =>
    intro kw h
    unfold applyParams
    rw [applyParam_unrecognized kw q (h q (by simp))]
    exact ih kw (fun x hx => h x (by simp [hx]))

/-- C3: `PageSpecifier.decode` surfaces a format error rather than a
silently defaulted page specifier: a `d=` value whose packed length is
not 17 makes `decodeDateTime` raise `ValueError` (and any cursor whose
split contains such a `d=` parameter makes `decode` raise); a cursor
whose split contains an `o=` or `s=` parameter whose value `int()`
rejects makes `decode` raise; and a cursor none of whose parameters is
recognized leaves `mode` unset, so the constructor call raises
`TypeError`. -/
theorem decode_rejects_malformed :
    (∀ v : List Char, v.length ≠ 17 →
      PageSpecifier.decodeDateTime v = .error .valueError) ∧
    (∀ s rest : List Char, ('d' :: '=' :: rest) ∈ splitOnChar ';' s →
      rest.length ≠ 17 → ∃ e, PageSpecifier.decode s = .error e) ∧
    (∀ s rest : List Char, ('o' :: '=' :: rest) ∈ splitOnChar ';' s →
      parsePyInt rest = none → ∃ e, PageSpecifier.decode s = .error e) ∧
    (∀ s rest : List Char, ('s' :: '=' :: rest) ∈ splitOnChar ';' s →
      parsePyInt rest = none → ∃ e, PageSpecifier.decode s = .error e) ∧
    (∀ s : List Char, (∀ p ∈ splitOnChar ';' s, recognizedParam p = false) →
      PageSpecifier.decode s = .error .typeError) := by
  have hdd : ∀ v : List Char, v.length ≠ 17 →
      PageSpecifier.decodeDateTime v = .error .valueError := by
    intro v hv
    unfold PageSpecifier.decodeDateTime
    rw [if_pos hv]
  refine ⟨hdd, ?_, ?_, ?_, ?_⟩
  · intro s rest hmem hlen
    obtain ⟨e, he⟩ := applyParams_mem_error _
      (fun kw => ⟨.valueError, applyParam_d_error kw rest .valueError (hdd rest hlen)⟩)
      _ hmem ⟨none, none, none, none, none⟩
    exact ⟨e, by unfold PageSpecifier.decode; rw [he]⟩
  · intro s rest hmem hparse
    obtain ⟨e, he⟩ := applyParams_mem_error _
      (fun kw => ⟨.valueError, applyParam_o_error kw rest hparse⟩)
      _ hmem ⟨none, none, none, none, none⟩
    exact ⟨e, by unfold PageSpecifier.decode; rw [he]⟩
  · intro s rest hmem hparse
    obtain ⟨e, he⟩ := applyParams_mem_error _
      (fun kw => ⟨.valueError, applyParam_s_error kw rest hparse⟩)
      _ hmem ⟨none, none, none, none, none⟩
    exact ⟨e, by unfold PageSpecifier.decode; rw [he]⟩
  · intro s hall
    unfold PageSpecifier.decode
    rw [applyParams_all_unrecognized _ _ hall]

/-- Witness for C3: a short packed value, a cursor with a short `d=`
value, cursors with non-numeric `o=` and `s=` values, and a wholly
unrecognized cursor string. -/
theorem decode_rejects_malformed_witness :
    PageSpecifier.decodeDateTime ['a'] = .error .valueError ∧
    (∃ e, PageSpecifier.decode "m=recent;d=123".toList = .error e) ∧
    (∃ e, PageSpecifier.decode "m=recent;o=xx".toList = .error e) ∧
    (∃ e, PageSpecifier.decode "m=recent;s=yy".toList = .error e) ∧
    PageSpecifier.decode "garbage".toList = .error .typeError :=
  ⟨decode_rejects_malformed.1 ['a'] (by decide),
   decode_rejects_malformed.2.1 "m=recent;d=123".toList "123".toList
     (by decide) (by decide),
   decode_rejects_malformed.2.2.1 "m=recent;o=xx".toList "xx".toList
     (by decide) (by decide),
   decode_rejects_malformed.2.2.2.1 "m=recent;s=yy".toList "yy".toList
     (by decide) (by decide),
   decode_rejects_malformed.2.2.2.2 "garbage".toList (by decide)⟩
